import Mathlib

/-!
# apprunner: construction, run race and bounded shutdown

A shallow embedding of `cmd/internal/apprunner/apprunner.go`.

* Go `error` values are trees (`GoError`); `nil` is `none`.
* `NewAppRunner` is a pure function that also returns the log of the calls it
  makes on its collaborators. The entries of subsystem lists are non-nil
  interface values and the options are non-nil functions; the method
  `RegisterCollectors` of the metrics subsystem, which lives in another package,
  is a parameter.
* `StopApps` and `Run` start goroutines; their nondeterminism is an explicit
  schedule of events that a total step function consumes. The statement
  `err = errors.Join(err, ...)` of the stop goroutines is two events, the read of
  `err` and the assignment, since nothing in the source makes it one.
* Calls into collaborators (`SetLogger`, `Tracer`, `Info`, ...) return, except
  that a method call on a nil logger panics.
-/

namespace apprunner

/-! ## Go errors -/

/-- A non-nil Go `error`: a leaf (`errors.New`, `fmt.Errorf` without `%w`, the
sentinels of package `context`), a `fmt.Errorf("msg: %w", inner)` wrapper, or the
result of `errors.Join`. Identity of error values is structural equality. -/
inductive GoError where
  | leaf (text : String)
  | wrap (msg : String) (inner : GoError)
  | join (errs : List GoError)

/-- The Go interface type `error`; `none` is `nil`. -/
abbrev Error := Option GoError

namespace GoError

mutual
/-- Decidable equality of error values (the `==` of Go on comparable errors). -/
def decEq : (a b : GoError) → Decidable (a = b)
  | leaf s, leaf t =>
    if h : s = t then isTrue (by rw [h]) else isFalse (by intro h2; cases h2; exact h rfl)
  | wrap m a, wrap n b =>
    if h : m = n then
      match decEq a b with
      | isTrue h2 => isTrue (by rw [h, h2])
      | isFalse h2 => isFalse (by intro h3; cases h3; exact h2 rfl)
    else isFalse (by intro h3; cases h3; exact h rfl)
  | join as, join bs =>
    match decEqList as bs with
    | isTrue h => isTrue (by rw [h])
    | isFalse h => isFalse (by intro h3; cases h3; exact h rfl)
  | leaf _, wrap _ _ => isFalse (by intro h; cases h)
  | leaf _, join _ => isFalse (by intro h; cases h)
  | wrap _ _, leaf _ => isFalse (by intro h; cases h)
  | wrap _ _, join _ => isFalse (by intro h; cases h)
  | join _, leaf _ => isFalse (by intro h; cases h)
  | join _, wrap _ _ => isFalse (by intro h; cases h)
/-- Decidable equality of lists of error values. -/
def decEqList : (as bs : List GoError) → Decidable (as = bs)
  | [], [] => isTrue rfl
  | a :: as, b :: bs =>
    match decEq a b with
    | isTrue h =>
      match decEqList as bs with
      | isTrue h2 => isTrue (by rw [h, h2])
      | isFalse h2 => isFalse (by intro h3; cases h3; exact h2 rfl)
    | isFalse h => isFalse (by intro h3; cases h3; exact h rfl)
  | [], _ :: _ => isFalse (by intro h; cases h)
  | _ :: _, [] => isFalse (by intro h; cases h)
end

instance : DecidableEq GoError := decEq

mutual
/-- The loop of `errors.is`: `err == target`, else follow `Unwrap() error` of a
`%w` wrapper or search every element of `Unwrap() []error` of a joined error. -/
def is (target : GoError) : GoError → Bool
  | leaf s => decide (leaf s = target)
  | wrap m inner => decide (wrap m inner = target) || is target inner
  | join errs => decide (join errs = target) || isAny target errs
/-- The `for _, err := range x.Unwrap()` loop of `errors.is` on a joined error. -/
def isAny (target : GoError) : List GoError → Bool
  | [] => false
  | e :: es => is target e || isAny target es
end

end GoError

/-- Go `errors.Is(err, target)`: with a nil operand it is `err == target`. -/
def errorsIs : Error → Error → Bool
  | some e, some t => GoError.is t e
  | none, none => true
  | _, _ => false

/-- Go `errors.Join(errs...)`: nil operands are discarded; nil when none is left. -/
def errorsJoin (errs : List Error) : Error :=
  match errs.filterMap id with
  | [] => none
  | es => some (.join es)

/-- Go `fmt.Errorf(msg + ": %w", err)` with a non-nil operand. -/
def fmtErrorf (msg : String) (err : GoError) : GoError := .wrap msg err

/-- The sentinel `context.Canceled`. -/
def contextCanceled : GoError := .leaf "context canceled"

/-- The sentinel `context.DeadlineExceeded`. -/
def contextDeadlineExceeded : GoError := .leaf "context deadline exceeded"

/-! ## Collaborators -/

/-- Go `time.Duration`: a signed count of nanoseconds. -/
abbrev Duration := Int

/-- Go `time.Second`. -/
def Second : Duration := 1000000000

/-- A non-nil `log.Logger`: the `&log.NoOpLogger{}` default or a caller-supplied one. -/
inductive LoggerImpl where
  | noOp
  | custom (id : Nat)
deriving DecidableEq, Repr

/-- The interface type `log.Logger`; `none` is the nil interface. -/
abbrev Logger := Option LoggerImpl

/-- A non-nil `trace.TracerProvider`: the process-wide one that
`otel.GetTracerProvider()` returns, or a caller-supplied one. -/
inductive TracerProviderImpl where
  | global
  | custom (id : Nat)
deriving DecidableEq, Repr

/-- The interface type `trace.TracerProvider`; `none` is the nil interface. -/
abbrev TracerProvider := Option TracerProviderImpl

/-- A `trace.Tracer` obtained by `provider.Tracer(name)`. -/
structure Tracer where
  provider : TracerProviderImpl
  name : String
deriving DecidableEq, Repr

/-- A `prometheus.Collector`, by identity. -/
abbrev Collector := Nat

/-- A non-nil `app.App`. The type assertions of `NewAppRunner` are the four
capability flags; `collectors` is what `PrometheusCollectors()` returns. -/
structure App where
  id : Nat
  loggable : Bool
  configSetter : Bool
  traceable : Bool
  metricsSetter : Bool
  collectors : List Collector
deriving DecidableEq, Repr

/-- A non-nil `*app.MetricsServerApp`, seen as the `app.App` that is appended to
the list. Its `RegisterCollectors` method is a parameter of `NewAppRunner`. -/
structure MetricsServerApp where
  asApp : App
deriving DecidableEq, Repr

/-! ## Configuration and options -/

/-- The struct `appRunnerConfig`. -/
structure appRunnerConfig where
  metricsApp : Option MetricsServerApp
  log : Logger
  tracerProvider : TracerProvider
  additionalApps : List App
  exitWait : Duration
deriving DecidableEq, Repr

/-- The type `Option` of the package: `func(*appRunnerConfig)`, as a state
transformer of the configuration. -/
abbrev RunnerOption := appRunnerConfig → appRunnerConfig

/-- `WithMetricsApp`: sets `metricsApp`. -/
def WithMetricsApp (metricsApp : Option MetricsServerApp) : RunnerOption :=
  fun c => { c with metricsApp := metricsApp }

/-- `WithLogger`: sets `log`. -/
def WithLogger (l : Logger) : RunnerOption :=
  fun c => { c with log := l }

/-- `WithTracerProvider`: sets `tracerProvider`. -/
def WithTracerProvider (tp : TracerProvider) : RunnerOption :=
  fun c => { c with tracerProvider := tp }

/-- `WithAdditionalApps`: sets `additionalApps`. -/
def WithAdditionalApps (additionalApps : List App) : RunnerOption :=
  fun c => { c with additionalApps := additionalApps }

/-- `WithExitWait`: sets `exitWait`. -/
def WithExitWait (exitWait : Duration) : RunnerOption :=
  fun c => { c with exitWait := exitWait }

/-- The composite literal of `NewAppRunner` (lines 84-88): the unnamed fields
take their zero value. -/
def defaultConfig : appRunnerConfig :=
  { metricsApp := none
    log := some .noOp
    tracerProvider := some .global
    additionalApps := []
    exitWait := 5 * Second }

/-- The loop `for _, opt := range opts { opt(&config) }`. -/
def applyOptions (config : appRunnerConfig) (opts : List RunnerOption) : appRunnerConfig :=
  opts.foldl (fun c opt => opt c) config

/-- One call of one of the five option constructors, as data: used to speak
about lists of options built from them. -/
inductive OptionCall where
  | metricsApp (m : Option MetricsServerApp)
  | logger (l : Logger)
  | tracerProvider (tp : TracerProvider)
  | additionalApps (apps : List App)
  | exitWait (d : Duration)
deriving DecidableEq, Repr

/-- The `Option` value that the constructor call produces. -/
def OptionCall.toOption : OptionCall → RunnerOption
  | .metricsApp m => WithMetricsApp m
  | .logger l => WithLogger l
  | .tracerProvider tp => WithTracerProvider tp
  | .additionalApps apps => WithAdditionalApps apps
  | .exitWait d => WithExitWait d

/-! ## Construction -/

/-- The struct `appRunner`. The mutex `mu` only serialises the `Run` calls on one
runner; one call is modelled, so it has no field here. -/
structure appRunner where
  apps : List App
  log : Logger
  tracer : Option Tracer
  exitWait : Duration
deriving DecidableEq, Repr

/-- A call that `NewAppRunner` makes on a subsystem, on the metrics subsystem
or on the tracer provider, with its receiver and arguments. -/
inductive Call (C : Type) where
  | PrometheusCollectors (a : App)
  | RegisterCollectors (m : MetricsServerApp) (collectors : List Collector)
  | SetLogger (a : App) (l : Logger)
  | SetAppConf (a : App) (conf : C)
  | SetTracerProvider (a : App) (tp : TracerProviderImpl)
  | Tracer (tp : TracerProviderImpl) (name : String)

/-- The registration loop (lines 103-111) over the subsystems built so far, with
`reg` the method `RegisterCollectors` of the metrics subsystem acting on its
registry state: the first registration error stops the loop. -/
def registerCollectors {σ C : Type} (reg : σ → List Collector → Except GoError σ)
    (m : MetricsServerApp) : σ → List App → Except GoError σ × List (Call C)
  | st, [] => (.ok st, [])
  | st, ap :: rest =>
    if ap.metricsSetter then
      match reg st ap.collectors with
      | .error regErr =>
        (.error regErr, [.PrometheusCollectors ap, .RegisterCollectors m ap.collectors])
      | .ok st2 =>
        let r := registerCollectors reg m st2 rest
        (r.1, .PrometheusCollectors ap :: .RegisterCollectors m ap.collectors :: r.2)
    else registerCollectors reg m st rest

/-- The loop of lines 116-123: logger and shared configuration injection. -/
def injectLogConf {C : Type} (log : Logger) (appsCommonCfg : C) : List App → List (Call C)
  | [] => []
  | ap :: rest =>
    (if ap.loggable then [Call.SetLogger ap log] else []) ++
    (if ap.configSetter then [Call.SetAppConf ap appsCommonCfg] else []) ++
    injectLogConf log appsCommonCfg rest

/-- The loop of lines 130-134: tracer provider injection. -/
def injectTracer {C : Type} (traceProvide : TracerProviderImpl) : List App → List (Call C)
  | [] => []
  | ap :: rest =>
    (if ap.traceable then [Call.SetTracerProvider ap traceProvide] else []) ++
    injectTracer traceProvide rest

/-- Lines 115-142 of `NewAppRunner`: the injections on the final list and the
runner that is returned, with the calls made. -/
def wire {C : Type} (config : appRunnerConfig) (appsCommonCfg : C) (apps : List App) :
    appRunner × List (Call C) :=
  let calls1 := injectLogConf config.log appsCommonCfg apps
  match config.tracerProvider with
  | some traceProvide =>
    ({ apps := apps, log := config.log, exitWait := config.exitWait,
       tracer := some { provider := traceProvide, name := "apprunner" } },
     calls1 ++ Call.Tracer traceProvide "apprunner" :: injectTracer traceProvide apps)
  | none =>
    ({ apps := apps, log := config.log, exitWait := config.exitWait, tracer := none }, calls1)

/-- `NewAppRunner` (lines 79-143). `reg` and `st` are the `RegisterCollectors`
method of the metrics subsystem and the state of its registry. The result is
the pair `(AppRunner, error)` as an `Except`, with the log of the calls made on
collaborators, in order. -/
def NewAppRunner {σ C : Type} (reg : σ → List Collector → Except GoError σ) (st : σ)
    (mainApp : Option App) (appsCommonCfg : C) (opts : List RunnerOption) :
    Except GoError appRunner × List (Call C) :=
  match mainApp with
  | none => (.error (.leaf "mainApp cannot be nil"), [])
  | some mainApp =>
    let config := applyOptions defaultConfig opts
    let apps := [mainApp]
    let apps := if config.additionalApps.length > 0 then apps ++ config.additionalApps else apps
    match config.metricsApp with
    | some metricsApp =>
      match registerCollectors reg metricsApp st apps with
      | (.error regErr, calls) =>
        (.error (fmtErrorf "error registering prometheus collector" regErr), calls)
      | (.ok _, calls) =>
        let r := wire config appsCommonCfg (apps ++ [metricsApp.asApp])
        (.ok r.1, calls ++ r.2)
    | none =>
      let r := wire config appsCommonCfg apps
      (.ok r.1, r.2)

/-! ## Contexts -/

/-- A `context.Context`, by the way it was derived: a caller-supplied context
(`cancelable = false` for `context.Background()` and the like, whose `Done()`
is never ready), `context.WithoutCancel(parent)`, `context.WithTimeout(parent, d)`.
Whether and with which `Err()` a cancelable context is done at a given
moment belongs to the environment, not to this value. -/
inductive Context where
  | root (id : Nat) (cancelable : Bool)
  | withoutCancel (parent : Context)
  | withTimeout (parent : Context) (timeout : Duration)
deriving DecidableEq, Repr

/-- Whether `Done()` of the context can ever become ready. -/
def Context.canBeDone : Context → Bool
  | .root _ cancelable => cancelable
  | .withoutCancel _ => false
  | .withTimeout _ _ => true

/-- The `Err()` that the environment reports for the context, which is nil for
a context that can never be done. -/
def Context.errAt (ctx : Context) (observed : Error) : Error :=
  if ctx.canBeDone then observed else none

/-- The `Err()` of the context that `context.WithTimeout(parent, timeout)` has just
returned, given `parentErr`, the `Err()` of the parent at that moment: a parent
that is already done cancels the child with its own error; otherwise a
deadline that has already passed cancels it with `context.DeadlineExceeded`. -/
def withTimeoutErr (parentErr : Error) (timeout : Duration) : Error :=
  match parentErr with
  | some e => some e
  | none => if timeout ≤ 0 then some contextDeadlineExceeded else none

/-! ## StopApps -/

/-- Where the goroutine started for one subsystem (lines 188-193) stands. -/
inductive Phase where
  /-- Started by the `go` statement; `a.Stop` is not invoked yet. -/
  | spawned
  /-- Inside `a.Stop(stopCtx)`. -/
  | inStop
  /-- The call `a.Stop` returned a non-nil `stopErr`; `err` is not read yet. -/
  | returned (stopErr : GoError)
  /-- The operand `err` of `errors.Join` is read; the assignment is pending. -/
  | loaded (old : Error) (stopErr : GoError)
  /-- The deferred `wg.Done()` has run. -/
  | finished
deriving DecidableEq

/-- One step of one of the goroutines of `StopApps`, or of its environment. -/
inductive StopEvent where
  /-- Goroutine `i` invokes `a.Stop(stopCtx)`. -/
  | invoke (i : Nat)
  /-- The call `a.Stop` of goroutine `i` returns `r`. -/
  | stopReturns (i : Nat) (r : Error)
  /-- Goroutine `i` reads the shared variable `err` (line 191, right-hand side). -/
  | load (i : Nat)
  /-- Goroutine `i` assigns `errors.Join(old, wrapped)` to `err` (line 191). -/
  | store (i : Nat)
  /-- The waiter goroutine gets past `wg.Wait()` and closes `done` (lines 197-200). -/
  | closeDone
  /-- The input context becomes done with `Err() = e`. -/
  | parentDone (e : GoError)
  /-- The `exitWait` timer of `stopCtx` fires. -/
  | deadline
  /-- The `select` takes `case <-done`. -/
  | selectDone
  /-- The `select` takes `case <-stopCtx.Done()`. -/
  | selectCtxDone
deriving DecidableEq

/-- The branch through which `StopApps` returned. -/
inductive StopBranch where
  | completed
  | timedOut
deriving DecidableEq, Repr

/-- The state of one `StopApps` call. `calls` records every `a.Stop(ctx)`
invocation (position in `ar.apps`, receiver, argument) and `stopErrs` every
non-nil error that a `Stop` call returned (position, error); `result` and
`branch` are set when the `select` resolves, that is when `StopApps` returns. -/
structure StopState where
  phases : List Phase
  err : Error
  doneClosed : Bool
  stopCtxErr : Error
  calls : List (Nat × App × Context)
  stopErrs : List (Nat × GoError)
  result : Option Error
  branch : Option StopBranch

/-- One step of the `StopApps` call on `apps` with stop context `stopCtx`;
`parentCanBeDone` tells whether the input context can be done. An event that
is not enabled leaves the state unchanged. The goroutines keep running after
`StopApps` has returned. -/
def StopState.step (stopCtx : Context) (apps : List App) (parentCanBeDone : Bool)
    (s : StopState) : StopEvent → StopState
  | .invoke i =>
    match s.phases[i]?, apps[i]? with
    | some .spawned, some a =>
      { s with phases := s.phases.set i .inStop, calls := s.calls ++ [(i, a, stopCtx)] }
    | _, _ => s
  | .stopReturns i r =>
    match s.phases[i]? with
    | some .inStop =>
      match r with
      | none => { s with phases := s.phases.set i .finished }
      | some stopErr =>
        { s with phases := s.phases.set i (.returned stopErr),
                 stopErrs := s.stopErrs ++ [(i, stopErr)] }
    | _ => s
  | .load i =>
    match s.phases[i]? with
    | some (.returned stopErr) => { s with phases := s.phases.set i (.loaded s.err stopErr) }
    | _ => s
  | .store i =>
    match s.phases[i]? with
    | some (.loaded old stopErr) =>
      { s with phases := s.phases.set i .finished,
               err := errorsJoin [old, some (fmtErrorf "app stop error" stopErr)] }
    | _ => s
  | .closeDone =>
    if s.phases.all (fun p => decide (p = .finished)) then { s with doneClosed := true } else s
  | .parentDone e =>
    if parentCanBeDone && s.stopCtxErr.isNone then { s with stopCtxErr := some e } else s
  | .deadline =>
    if s.stopCtxErr.isNone then { s with stopCtxErr := some contextDeadlineExceeded } else s
  | .selectDone =>
    if s.result.isNone && s.doneClosed then
      { s with result := some s.err, branch := some .completed,
               stopCtxErr := s.stopCtxErr.orElse (fun _ => some contextCanceled) }
    else s
  | .selectCtxDone =>
    match s.result, s.stopCtxErr with
    | none, some cause =>
      { s with result := some (some (fmtErrorf "stopping apps exceeded ExitWait duration" cause)),
               branch := some .timedOut }
    | _, _ => s

/-- The state of `StopApps` when it reaches its `select`: one goroutine started
per subsystem, `err` nil, `stopCtx` as `context.WithTimeout` returned it. -/
def appRunner.stopInit (ar : appRunner) (parentErr : Error) : StopState :=
  { phases := ar.apps.map (fun _ => Phase.spawned)
    err := none
    doneClosed := false
    stopCtxErr := withTimeoutErr parentErr ar.exitWait
    calls := []
    stopErrs := []
    result := none
    branch := none }

/-- The stop context of a `StopApps(ctx)` call: `context.WithTimeout(ctx, ar.exitWait)`. -/
def appRunner.stopCtx (ar : appRunner) (ctx : Context) : Context :=
  .withTimeout ctx ar.exitWait

/-- `StopApps(ctx)` (lines 180-209) under a schedule. `ctxErr` is the `Err()` of
`ctx` when the call starts. -/
def appRunner.StopApps (ar : appRunner) (ctx : Context) (ctxErr : Error)
    (schedule : List StopEvent) : StopState :=
  schedule.foldl (StopState.step (ar.stopCtx ctx) ar.apps ctx.canBeDone)
    (ar.stopInit (ctx.errAt ctxErr))

/-- A schedule in which the read-modify-write of `err` (line 191) is not
interleaved: every `load` is directly followed by the `store` of the same
goroutine. -/
def atomicUpdates : List StopEvent → Bool
  | [] => true
  | .load i :: .store j :: rest => decide (i = j) && atomicUpdates rest
  | .load _ :: _ => false
  | _ :: rest => atomicUpdates rest

/-- The events by which every goroutine that has not invoked `a.Stop` yet does so. -/
def invokeAll (n : Nat) : List StopEvent :=
  (List.range n).map StopEvent.invoke

/-! ## Run -/

/-- How a call ended. -/
inductive Outcome (α : Type) where
  | returned (v : α)
  | panicked
  | blocked

/-- The case that the `select` of `Run` takes. -/
inductive Branch where
  | ctxDone
  | errChan (err : GoError)
deriving DecidableEq

/-- The environment of one `Run(ctx)` call at the moment its `select` resolves,
and the schedule of the shutdown that follows. -/
structure RunWorld where
  /-- The `a.Run(ctx)` calls that have returned: position and result, in order. -/
  returned : List (Nat × Error)
  /-- The `Err()` of `ctx`: non-nil iff `ctx.Done()` is ready. -/
  ctxErr : Error
  /-- The pick of the `select` when both cases are ready. -/
  preferErrChan : Bool
  stopSchedule : List StopEvent

/-- The values sent on `errChan` by the goroutines of lines 155-160, in order:
a goroutine sends once, and only a non-nil result, wrapped. `seen` holds the
positions whose `a.Run` has returned already. -/
def errChanSends (n : Nat) : List Nat → List (Nat × Error) → List GoError
  | _, [] => []
  | seen, (i, r) :: rest =>
    if i < n && !seen.contains i then
      match r with
      | some err => fmtErrorf "error starting app" err :: errChanSends n (i :: seen) rest
      | none => errChanSends n (i :: seen) rest
    else errChanSends n seen rest

/-- The `select` of `Run` (lines 164-177): no case ready blocks. -/
def selectRun (ctxDone : Bool) (errChan : List GoError) (preferErrChan : Bool) :
    Option Branch :=
  match ctxDone, errChan with
  | false, [] => none
  | true, [] => some .ctxDone
  | false, err :: _ => some (.errChan err)
  | true, err :: _ => if preferErrChan then some (.errChan err) else some .ctxDone

/-- What one `Run` call did: the contents of `errChan`, the branch taken, the
messages logged, the `StopApps` calls made (argument and execution) and
how `Run` ended. -/
structure RunTrace where
  errChan : List GoError
  branch : Option Branch
  logged : List String
  stopApps : List (Context × StopState)
  result : Outcome Error

/-- `Run(ctx)` (lines 145-178). A nil logger makes `ar.log.Info` panic; a
`StopApps` that does not return leaves `Run` blocked. -/
def appRunner.Run (ar : appRunner) (ctx : Context) (w : RunWorld) : RunTrace :=
  let errChan := errChanSends ar.apps.length [] w.returned
  let branch := selectRun (ctx.errAt w.ctxErr).isSome errChan w.preferErrChan
  match branch with
  | none =>
    { errChan := errChan, branch := none, logged := [], stopApps := [], result := .blocked }
  | some .ctxDone =>
    match ar.log with
    | none =>
      { errChan := errChan, branch := branch, logged := [], stopApps := [], result := .panicked }
    | some _ =>
      let st := ar.StopApps (.withoutCancel ctx) none w.stopSchedule
      { errChan := errChan, branch := branch
        logged := ["Context canceled, stopping apps"]
        stopApps := [(.withoutCancel ctx, st)]
        result :=
          match st.result with
          | none => .blocked
          | some (some err) => .returned (some (fmtErrorf "failed to stop apps" err))
          | some none => .returned none }
  | some (.errChan err) =>
    match ar.log with
    | none =>
      { errChan := errChan, branch := branch, logged := [], stopApps := [], result := .panicked }
    | some _ =>
      let st := ar.StopApps (.withoutCancel ctx) none w.stopSchedule
      { errChan := errChan, branch := branch
        logged := ["App failed, stopping all apps"]
        stopApps := [(.withoutCancel ctx, st)]
        result :=
          match st.result with
          | none => .blocked
          | some (some stopErr) =>
            .returned (errorsJoin [some err, some (fmtErrorf "failed to stop apps" stopErr)])
          | some none => .returned (some err) }

/-! ## The subsystem slice in memory

Lines 95-98 and 112 of `NewAppRunner` on slice headers and backing arrays, to
tell whether building the list can write into the slice that the caller gave to
`WithAdditionalApps`. -/

/-- A Go slice header: backing array, offset of the first element in it,
length and capacity. -/
structure Slice where
  arr : Nat
  off : Nat
  len : Nat
  cap : Nat
deriving DecidableEq, Repr

/-- The backing arrays of the `[]app.App` slices; a cell holds an `app.App`
interface value, nil in the unused capacity. -/
abbrev Heap := List (List (Option App))

/-- The elements of a slice. -/
def Heap.elems (h : Heap) (s : Slice) : List (Option App) :=
  ((h.getD s.arr []).drop s.off).take s.len

/-- Go `append(s, xs...)`: the elements are written in place into the backing
array when the capacity suffices; else a larger array is allocated, the old
elements are copied and the slice that is returned refers to the new array.
`grow` is the growth policy of the runtime (old capacity, needed length). -/
def goAppend (grow : Nat → Nat → Nat) (h : Heap) (s : Slice) (xs : List (Option App)) :
    Heap × Slice :=
  if s.len + xs.length ≤ s.cap then
    let cells := h.getD s.arr []
    (h.set s.arr (cells.take (s.off + s.len) ++ xs ++ cells.drop (s.off + s.len + xs.length)),
     { s with len := s.len + xs.length })
  else
    let newcap := max (s.len + xs.length) (grow s.cap (s.len + xs.length))
    (h ++ [h.elems s ++ xs ++ List.replicate (newcap - (s.len + xs.length)) none],
     { arr := h.length, off := 0, len := s.len + xs.length, cap := newcap })

/-- Lines 95-98 and 112: the literal `[]app.App{mainApp}`, the append of the
additional subsystems when there are any, the append of the metrics subsystem
when one is configured. -/
def buildAppsSlice (grow : Nat → Nat → Nat) (h : Heap) (mainApp : App)
    (additionalApps : Slice) (metricsApp : Option MetricsServerApp) : Heap × Slice :=
  let h1 := h ++ [[some mainApp]]
  let apps : Slice := { arr := h.length, off := 0, len := 1, cap := 1 }
  let r := if additionalApps.len > 0 then goAppend grow h1 apps (h1.elems additionalApps)
           else (h1, apps)
  match metricsApp with
  | some m => goAppend grow r.1 r.2 [some m.asApp]
  | none => r

/-- A slice header that refers to cells that exist: its backing array is
allocated and holds the whole capacity of the slice. -/
def Heap.wellFormed (h : Heap) (s : Slice) : Prop :=
  s.arr < h.length ∧ s.off + s.cap ≤ (h.getD s.arr []).length ∧ s.len ≤ s.cap

/-! ## Vocabulary of the statements -/

/-- The value of a `WithMetricsApp` call, if the call is one. -/
def OptionCall.metricsApp? : OptionCall → Option (Option MetricsServerApp)
  | .metricsApp m => some m
  | _ => none

/-- The value of a `WithLogger` call, if the call is one. -/
def OptionCall.logger? : OptionCall → Option Logger
  | .logger l => some l
  | _ => none

/-- The value of a `WithTracerProvider` call, if the call is one. -/
def OptionCall.tracerProvider? : OptionCall → Option TracerProvider
  | .tracerProvider tp => some tp
  | _ => none

/-- The value of a `WithAdditionalApps` call, if the call is one. -/
def OptionCall.additionalApps? : OptionCall → Option (List App)
  | .additionalApps apps => some apps
  | _ => none

/-- The value of a `WithExitWait` call, if the call is one. -/
def OptionCall.exitWait? : OptionCall → Option Duration
  | .exitWait d => some d
  | _ => none

/-- The last of the values given for a field, or the default when none is given. -/
def lastOr {α : Type} (dflt : α) (given : List α) : α :=
  given.getLast?.getD dflt

/-- The configuration that `NewAppRunner` resolves from a list of options. -/
def resolvedConfig (opts : List RunnerOption) : appRunnerConfig :=
  applyOptions defaultConfig opts

/-- Receiver and argument of a `SetLogger` call. -/
def Call.logger? {C : Type} : Call C → Option (App × Logger)
  | .SetLogger a l => some (a, l)
  | _ => none

/-- Receiver and argument of a `SetAppConf` call. -/
def Call.conf? {C : Type} : Call C → Option (App × C)
  | .SetAppConf a conf => some (a, conf)
  | _ => none

/-- Receiver and argument of a `SetTracerProvider` call. -/
def Call.tracer? {C : Type} : Call C → Option (App × TracerProviderImpl)
  | .SetTracerProvider a tp => some (a, tp)
  | _ => none

/-- The subsystems of the final list when a metrics subsystem is or is not configured. -/
def metricsTail (metricsApp : Option MetricsServerApp) : List App :=
  match metricsApp with
  | some m => [m.asApp]
  | none => []

/-- Registering the collectors of some subsystem of `apps` that exposes the
metrics-collector capability fails: the registrations of the subsystems before
it succeed and lead to a registry state in which its own is rejected. -/
def registrationFails {σ : Type} (reg : σ → List Collector → Except GoError σ)
    (m : MetricsServerApp) (st : σ) (apps : List App) : Prop :=
  ∃ pre a post st2 e, apps = pre ++ a :: post ∧ a.metricsSetter = true ∧
    (@registerCollectors σ Unit reg m st pre).1 = .ok st2 ∧ reg st2 a.collectors = .error e

/-- The condition under which the specification says that construction fails:
a nil main subsystem, or a metrics subsystem and a failing registration. -/
def constructionFails {σ : Type} (reg : σ → List Collector → Except GoError σ) (st : σ)
    (mainApp : Option App) (opts : List RunnerOption) : Prop :=
  mainApp = none ∨
    ∃ m x, mainApp = some m ∧ (resolvedConfig opts).metricsApp = some x ∧
      registrationFails reg x st ([m] ++ (resolvedConfig opts).additionalApps)

/-- The return value of the `StopApps` call that `Run` made, if it made one
and the call returned. -/
def RunTrace.stopResult (t : RunTrace) : Option Error :=
  t.stopApps.head?.bind (fun c => c.2.result)

/-- Goroutine `i` has invoked `a.Stop`: it is past the phase `spawned`. -/
def started (phases : List Phase) (i : Nat) : Prop :=
  ∃ p, phases[i]? = some p ∧ p ≠ Phase.spawned

/-- The error with which the first of the events that can end the stop context
ends it: the timer firing gives `context.DeadlineExceeded`, the input context
becoming done, when it can be, gives its own error. -/
def firstCause (parentCanBeDone : Bool) : List StopEvent → Option GoError
  | [] => none
  | .deadline :: _ => some contextDeadlineExceeded
  | .parentDone e :: rest =>
    if parentCanBeDone then some e else firstCause parentCanBeDone rest
  | _ :: rest => firstCause parentCanBeDone rest

/-- What package `context` specifies for `stopCtx.Err()` after the events
`processed`: the error the stop context had when `context.WithTimeout` returned
it, else the error of the first event that ended it, else nil. -/
def stopCtxCause (parentCanBeDone : Bool) (parentErr : Error) (exitWait : Duration)
    (processed : List StopEvent) : Option GoError :=
  match withTimeoutErr parentErr exitWait with
  | some e => some e
  | none => firstCause parentCanBeDone processed

/-- The invariant of a `StopApps` execution that ties the log of `Stop`
invocations to the phases of the goroutines. -/
def CallsInv (stopCtx : Context) (apps : List App) (s : StopState) : Prop :=
  s.phases.length = apps.length ∧
  (s.calls.map Prod.fst).Nodup ∧
  (∀ i, i ∈ s.calls.map Prod.fst ↔ started s.phases i) ∧
  (∀ c ∈ s.calls, apps[c.1]? = some c.2.1 ∧ c.2.2 = stopCtx) ∧
  (s.doneClosed = true → ∀ p ∈ s.phases, p = Phase.finished) ∧
  (s.branch = some .completed → s.doneClosed = true)

/-- The invariant of a `StopApps` execution about the error of its stop context
and the error it returns through the timeout branch, after the events
`processed`. -/
def TimeoutInv (parentCanBeDone : Bool) (parentErr : Error) (exitWait : Duration)
    (processed : List StopEvent) (s : StopState) : Prop :=
  (s.result = none →
    s.stopCtxErr = stopCtxCause parentCanBeDone parentErr exitWait processed) ∧
  (s.branch = some .timedOut →
    ∃ c, stopCtxCause parentCanBeDone parentErr exitWait processed = some c ∧
      s.stopCtxErr = some c ∧
      s.result = some (some (fmtErrorf "stopping apps exceeded ExitWait duration" c))) ∧
  (s.err = none ∨ ∃ es, s.err = some (.join es))

/-- The invariant of a `StopApps` execution between two uninterleaved updates of
`err`: no goroutine stands between its read and its assignment, every stop
error returned so far is either still to be joined or recoverable from `err`,
and `err` is nil when no `Stop` has failed. -/
def AtomInv (s : StopState) : Prop :=
  (∀ (i : Nat) (old : Error) (e : GoError), s.phases[i]? ≠ some (Phase.loaded old e)) ∧
  (∀ q ∈ s.stopErrs, s.phases[q.1]? = some (Phase.returned q.2) ∨
    (s.phases[q.1]? = some Phase.finished ∧ errorsIs s.err (some q.2) = true)) ∧
  (∀ (i : Nat) (e : GoError), s.phases[i]? = some (Phase.returned e) → (i, e) ∈ s.stopErrs) ∧
  (s.stopErrs = [] → s.err = none) ∧
  (s.doneClosed = true → ∀ p ∈ s.phases, p = Phase.finished) ∧
  (s.branch = some .completed → s.doneClosed = true ∧ s.result = some s.err)

/-- The subsystem on which a recorded `Stop` invocation was made. -/
def callApp (c : Nat × App × Context) : App := c.2.1

/-- What the goroutine of lines 155-160 sends on the error channel for the
result of `a.Run`: nothing for nil, the wrapped error otherwise. -/
def sentFor (r : Nat × Error) : Option GoError :=
  r.2.map (fmtErrorf "error starting app")

/-! ## Sample inputs -/

/-- A registry that rejects a collector that is already registered. -/
def sampleRegister : List Collector → List Collector → Except GoError (List Collector) :=
  fun st cs =>
    if cs.any (fun c => st.contains c) then .error (.leaf "duplicate collector")
    else .ok (st ++ cs)

/-- A subsystem with the logger capability only. -/
def appLog : App :=
  { id := 0, loggable := true, configSetter := false, traceable := false,
    metricsSetter := false, collectors := [] }

/-- A subsystem with every capability, exporting collector 7. -/
def appAll : App :=
  { id := 1, loggable := true, configSetter := true, traceable := true,
    metricsSetter := true, collectors := [7] }

/-- A subsystem without any capability. -/
def appPlain : App :=
  { id := 2, loggable := false, configSetter := false, traceable := false,
    metricsSetter := false, collectors := [] }

/-- A metrics subsystem. -/
def sampleMetrics : MetricsServerApp :=
  { asApp := { id := 9, loggable := true, configSetter := false, traceable := false,
               metricsSetter := false, collectors := [] } }

/-- The runner built from `appPlain` with `WithExitWait(0)` then `WithExitWait(3s)`. -/
def sampleRunnerC9 : appRunner :=
  { apps := [appPlain], log := some .noOp,
    tracer := some { provider := .global, name := "apprunner" }, exitWait := 3 * Second }

/-- The runner built from `appLog` with additional subsystems `appAll`, `appPlain`
and the metrics subsystem `sampleMetrics`. -/
def sampleRunnerC7 : appRunner :=
  { apps := [appLog, appAll, appPlain, sampleMetrics.asApp], log := some .noOp,
    tracer := some { provider := .global, name := "apprunner" }, exitWait := 5 * Second }

/-- The options that give `appLog` the additional subsystems `appAll`, `appPlain`
and the metrics subsystem `sampleMetrics`. -/
def sampleOptsC7 : List RunnerOption :=
  [WithAdditionalApps [appAll, appPlain], WithMetricsApp (some sampleMetrics)]

/-- A runner over two subsystems. -/
def sampleRunner2 : appRunner :=
  { apps := [appLog, appAll], log := some .noOp, tracer := none, exitWait := 5 * Second }

/-- A runner over one subsystem. -/
def sampleRunner1 : appRunner :=
  { apps := [appLog], log := some .noOp, tracer := none, exitWait := 5 * Second }

/-- The stop error of the first subsystem in the samples. -/
def stopErr0 : GoError := .leaf "stop failed: app 0"

/-- The stop error of the second subsystem in the samples. -/
def stopErr1 : GoError := .leaf "stop failed: app 1"

/-- A shutdown of two subsystems in which every `Stop` succeeds. -/
def scheduleClean2 : List StopEvent :=
  [.invoke 0, .invoke 1, .stopReturns 0 none, .stopReturns 1 none, .closeDone, .selectDone]

/-- A shutdown of two subsystems in which both `Stop` calls fail and the two
goroutines read `err` before either of them assigns it. -/
def scheduleRacy2 : List StopEvent :=
  [.invoke 0, .invoke 1, .stopReturns 0 (some stopErr0), .stopReturns 1 (some stopErr1),
   .load 0, .load 1, .store 0, .store 1, .closeDone, .selectDone]

/-- A shutdown of two subsystems in which both `Stop` calls fail and each
goroutine assigns `err` right after reading it. -/
def scheduleSerial2 : List StopEvent :=
  [.invoke 0, .invoke 1, .stopReturns 0 (some stopErr0), .stopReturns 1 (some stopErr1),
   .load 0, .store 0, .load 1, .store 1, .closeDone, .selectDone]

/-- A shutdown in which the first `Stop` fails, the second never returns and the
timer fires. -/
def scheduleTimeout2 : List StopEvent :=
  [.invoke 0, .invoke 1, .stopReturns 0 (some stopErr0), .load 0, .store 0, .deadline,
   .selectCtxDone]

/-- A world in which the context is cancelled, no subsystem has failed and the
shutdown is clean. -/
def worldCancelClean : RunWorld :=
  { returned := [], ctxErr := some contextCanceled, preferErrChan := false,
    stopSchedule := scheduleClean2 }

/-- A world in which the second subsystem fails first and one `Stop` fails. -/
def worldFailStopFails : RunWorld :=
  { returned := [(1, some (.leaf "listen failed")), (0, none)], ctxErr := none,
    preferErrChan := false,
    stopSchedule := [.invoke 0, .invoke 1, .stopReturns 0 (some stopErr0), .stopReturns 1 none,
                     .load 0, .store 0, .closeDone, .selectDone] }

/-- A world in which the `Run` of the only subsystem returns `context.Canceled`
while the context of the orchestrator is not done. -/
def worldCanceledReturn : RunWorld :=
  { returned := [(0, some contextCanceled)], ctxErr := none, preferErrChan := false,
    stopSchedule := [.invoke 0, .stopReturns 0 none, .closeDone, .selectDone] }

/-- A world in which the `Run` of the only subsystem returns nil while the context
of the orchestrator is not done. -/
def worldNilReturn : RunWorld :=
  { returned := [(0, none)], ctxErr := none, preferErrChan := false,
    stopSchedule := [.invoke 0, .stopReturns 0 none, .closeDone, .selectDone] }

/-- A shutdown in which no `Stop` fails, the second `Stop` does not return and the
timer fires. -/
def scheduleTimeoutNoErr : List StopEvent :=
  [.invoke 0, .invoke 1, .stopReturns 0 none, .deadline, .selectCtxDone]

/-- A world in which the context is cancelled and the shutdown times out before
the goroutine of the second subsystem has invoked `Stop`. -/
def worldCancelTimeout : RunWorld :=
  { returned := [], ctxErr := some contextCanceled, preferErrChan := false,
    stopSchedule := [.invoke 0, .deadline, .selectCtxDone] }

/-- A world in which the context is cancelled, the `Run` of the only subsystem
returns the `context.Canceled` of that context, and the `select` of the
orchestrator, with both cases ready, takes the error channel. -/
def worldCanceledRace : RunWorld :=
  { returned := [(0, some contextCanceled)], ctxErr := some contextCanceled,
    preferErrChan := true,
    stopSchedule := [.invoke 0, .stopReturns 0 none, .closeDone, .selectDone] }

/-- A shutdown in which both `Stop` calls block and the stop context is done. -/
def scheduleBlocked2 : List StopEvent :=
  [.invoke 0, .invoke 1, .selectCtxDone]

/-- A shutdown in which both `Stop` calls block and the input context is
cancelled during the call, before the timer fires. -/
def scheduleCancelDuring2 : List StopEvent :=
  [.invoke 0, .invoke 1, .parentDone contextCanceled, .selectCtxDone]

/-- A runner over two subsystems built with `WithExitWait(0)`. -/
def sampleRunnerZeroWait : appRunner :=
  { apps := [appLog, appAll], log := some .noOp, tracer := none, exitWait := 0 }

/-- A world in which the context is cancelled and the `select` of `StopApps`
resolves before any stop goroutine has run. -/
def worldCancelImmediate : RunWorld :=
  { returned := [], ctxErr := some contextCanceled, preferErrChan := false,
    stopSchedule := [.selectCtxDone] }

/-- A world in which the `Run` of the second subsystem returns nil and then the
`Run` of the first returns `context.Canceled`, the context of the orchestrator
not being done. -/
def worldSecondReturnCanceled : RunWorld :=
  { returned := [(1, none), (0, some contextCanceled)], ctxErr := none,
    preferErrChan := false, stopSchedule := scheduleClean2 }

/-! ## Theorems: configuration -/

theorem applyOptions_append (c : appRunnerConfig) (xs ys : List RunnerOption) :
    applyOptions c (xs ++ ys) = applyOptions (applyOptions c xs) ys := by
  simp [applyOptions, List.foldl_append]

theorem lastOr_append_singleton {α : Type} (d : α) (xs : List α) (x : α) :
    lastOr d (xs ++ [x]) = x := by
  simp [lastOr]

theorem applyOptions_metricsApp (c : appRunnerConfig) (calls : List OptionCall) :
    (applyOptions c (calls.map OptionCall.toOption)).metricsApp
      = lastOr c.metricsApp (calls.filterMap OptionCall.metricsApp?) := by
  induction calls using List.reverseRecOn with
  | nil => rfl
  | append_singleton xs x ih =>
    rw [List.map_append, applyOptions_append, List.filterMap_append]
    cases x <;>
      simp [applyOptions, OptionCall.toOption, OptionCall.metricsApp?, WithMetricsApp,
        WithLogger, WithTracerProvider, WithAdditionalApps, WithExitWait,
        lastOr_append_singleton] <;>
      simpa [applyOptions] using ih

theorem applyOptions_log (c : appRunnerConfig) (calls : List OptionCall) :
    (applyOptions c (calls.map OptionCall.toOption)).log
      = lastOr c.log (calls.filterMap OptionCall.logger?) := by
  induction calls using List.reverseRecOn with
  | nil => rfl
  | append_singleton xs x ih =>
    rw [List.map_append, applyOptions_append, List.filterMap_append]
    cases x <;>
      simp [applyOptions, OptionCall.toOption, OptionCall.logger?, WithMetricsApp,
        WithLogger, WithTracerProvider, WithAdditionalApps, WithExitWait,
        lastOr_append_singleton] <;>
      simpa [applyOptions] using ih

theorem applyOptions_tracerProvider (c : appRunnerConfig) (calls : List OptionCall) :
    (applyOptions c (calls.map OptionCall.toOption)).tracerProvider
      = lastOr c.tracerProvider (calls.filterMap OptionCall.tracerProvider?) := by
  induction calls using List.reverseRecOn with
  | nil => rfl
  | append_singleton xs x ih =>
    rw [List.map_append, applyOptions_append, List.filterMap_append]
    cases x <;>
      simp [applyOptions, OptionCall.toOption, OptionCall.tracerProvider?, WithMetricsApp,
        WithLogger, WithTracerProvider, WithAdditionalApps, WithExitWait,
        lastOr_append_singleton] <;>
      simpa [applyOptions] using ih

theorem applyOptions_additionalApps (c : appRunnerConfig) (calls : List OptionCall) :
    (applyOptions c (calls.map OptionCall.toOption)).additionalApps
      = lastOr c.additionalApps (calls.filterMap OptionCall.additionalApps?) := by
  induction calls using List.reverseRecOn with
  | nil => rfl
  | append_singleton xs x ih =>
    rw [List.map_append, applyOptions_append, List.filterMap_append]
    cases x <;>
      simp [applyOptions, OptionCall.toOption, OptionCall.additionalApps?, WithMetricsApp,
        WithLogger, WithTracerProvider, WithAdditionalApps, WithExitWait,
        lastOr_append_singleton] <;>
      simpa [applyOptions] using ih

theorem applyOptions_exitWait (c : appRunnerConfig) (calls : List OptionCall) :
    (applyOptions c (calls.map OptionCall.toOption)).exitWait
      = lastOr c.exitWait (calls.filterMap OptionCall.exitWait?) := by
  induction calls using List.reverseRecOn with
  | nil => rfl
  | append_singleton xs x ih =>
    rw [List.map_append, applyOptions_append, List.filterMap_append]
    cases x <;>
      simp [applyOptions, OptionCall.toOption, OptionCall.exitWait?, WithMetricsApp,
        WithLogger, WithTracerProvider, WithAdditionalApps, WithExitWait,
        lastOr_append_singleton] <;>
      simpa [applyOptions] using ih

/-- C10: the configuration is the left-to-right fold of the options over the
defaults; each of the five option constructors sets its own field and leaves the
other four unchanged; hence every field of the final configuration is the value
of the last option of the list that targets it, or the default when no option
targets it (a later `WithAdditionalApps` replaces an earlier one). -/
theorem C10_options_fold_last_wins (calls : List OptionCall) :
    (∀ (opts : List RunnerOption) (opt : RunnerOption),
        resolvedConfig [] = defaultConfig ∧
        resolvedConfig (opts ++ [opt]) = opt (resolvedConfig opts)) ∧
    (∀ (c : appRunnerConfig) (m : Option MetricsServerApp),
        (WithMetricsApp m c).metricsApp = m ∧ (WithMetricsApp m c).log = c.log ∧
        (WithMetricsApp m c).tracerProvider = c.tracerProvider ∧
        (WithMetricsApp m c).additionalApps = c.additionalApps ∧
        (WithMetricsApp m c).exitWait = c.exitWait) ∧
    (∀ (c : appRunnerConfig) (l : Logger),
        (WithLogger l c).log = l ∧ (WithLogger l c).metricsApp = c.metricsApp ∧
        (WithLogger l c).tracerProvider = c.tracerProvider ∧
        (WithLogger l c).additionalApps = c.additionalApps ∧
        (WithLogger l c).exitWait = c.exitWait) ∧
    (∀ (c : appRunnerConfig) (tp : TracerProvider),
        (WithTracerProvider tp c).tracerProvider = tp ∧
        (WithTracerProvider tp c).metricsApp = c.metricsApp ∧
        (WithTracerProvider tp c).log = c.log ∧
        (WithTracerProvider tp c).additionalApps = c.additionalApps ∧
        (WithTracerProvider tp c).exitWait = c.exitWait) ∧
    (∀ (c : appRunnerConfig) (apps : List App),
        (WithAdditionalApps apps c).additionalApps = apps ∧
        (WithAdditionalApps apps c).metricsApp = c.metricsApp ∧
        (WithAdditionalApps apps c).log = c.log ∧
        (WithAdditionalApps apps c).tracerProvider = c.tracerProvider ∧
        (WithAdditionalApps apps c).exitWait = c.exitWait) ∧
    (∀ (c : appRunnerConfig) (d : Duration),
        (WithExitWait d c).exitWait = d ∧ (WithExitWait d c).metricsApp = c.metricsApp ∧
        (WithExitWait d c).log = c.log ∧
        (WithExitWait d c).tracerProvider = c.tracerProvider ∧
        (WithExitWait d c).additionalApps = c.additionalApps) ∧
    (resolvedConfig (calls.map OptionCall.toOption)).metricsApp
      = lastOr none (calls.filterMap OptionCall.metricsApp?) ∧
    (resolvedConfig (calls.map OptionCall.toOption)).log
      = lastOr (some LoggerImpl.noOp) (calls.filterMap OptionCall.logger?) ∧
    (resolvedConfig (calls.map OptionCall.toOption)).tracerProvider
      = lastOr (some TracerProviderImpl.global) (calls.filterMap OptionCall.tracerProvider?) ∧
    (resolvedConfig (calls.map OptionCall.toOption)).additionalApps
      = lastOr [] (calls.filterMap OptionCall.additionalApps?) ∧
    (resolvedConfig (calls.map OptionCall.toOption)).exitWait
      = lastOr (5 * Second) (calls.filterMap OptionCall.exitWait?) := by
  refine ⟨?_, ?_, ?_, ?_, ?_, ?_, ?_, ?_, ?_, ?_, ?_⟩
  · intro opts opt
    exact ⟨rfl, by simp [resolvedConfig, applyOptions]⟩
  · intro c m; exact ⟨rfl, rfl, rfl, rfl, rfl⟩
  · intro c l; exact ⟨rfl, rfl, rfl, rfl, rfl⟩
  · intro c tp; exact ⟨rfl, rfl, rfl, rfl, rfl⟩
  · intro c apps; exact ⟨rfl, rfl, rfl, rfl, rfl⟩
  · intro c d; exact ⟨rfl, rfl, rfl, rfl, rfl⟩
  · exact applyOptions_metricsApp defaultConfig calls
  · exact applyOptions_log defaultConfig calls
  · exact applyOptions_tracerProvider defaultConfig calls
  · exact applyOptions_additionalApps defaultConfig calls
  · exact applyOptions_exitWait defaultConfig calls

/-! ## Theorems: construction -/

theorem wire_fst {C : Type} (config : appRunnerConfig) (cfg : C) (apps : List App) :
    (wire config cfg apps).1.apps = apps ∧ (wire config cfg apps).1.log = config.log ∧
    (wire config cfg apps).1.exitWait = config.exitWait := by
  unfold wire
  cases config.tracerProvider <;> exact ⟨rfl, rfl, rfl⟩

theorem NewAppRunner_some {σ C : Type} (reg : σ → List Collector → Except GoError σ) (st : σ)
    (m : App) (cfg : C) (opts : List RunnerOption) :
    NewAppRunner reg st (some m) cfg opts =
      match (resolvedConfig opts).metricsApp with
      | some x =>
        match registerCollectors reg x st ([m] ++ (resolvedConfig opts).additionalApps) with
        | (.error regErr, calls) =>
          (.error (fmtErrorf "error registering prometheus collector" regErr), calls)
        | (.ok _, calls) =>
          (.ok (wire (resolvedConfig opts) cfg
                  ([m] ++ (resolvedConfig opts).additionalApps ++ [x.asApp])).1,
           calls ++ (wire (resolvedConfig opts) cfg
                  ([m] ++ (resolvedConfig opts).additionalApps ++ [x.asApp])).2)
      | none =>
        (.ok (wire (resolvedConfig opts) cfg ([m] ++ (resolvedConfig opts).additionalApps)).1,
         (wire (resolvedConfig opts) cfg ([m] ++ (resolvedConfig opts).additionalApps)).2) := by
  have happ : (if (resolvedConfig opts).additionalApps.length > 0
      then [m] ++ (resolvedConfig opts).additionalApps else [m])
      = [m] ++ (resolvedConfig opts).additionalApps := by
    cases h : (resolvedConfig opts).additionalApps <;> simp
  simp only [NewAppRunner]
  rw [show applyOptions defaultConfig opts = resolvedConfig opts from rfl, happ]

theorem NewAppRunner_ok {σ C : Type} (reg : σ → List Collector → Except GoError σ) (st : σ)
    (mainApp : Option App) (cfg : C) (opts : List RunnerOption) (ar : appRunner)
    (h : (NewAppRunner reg st mainApp cfg opts).1 = .ok ar) :
    ∃ m, mainApp = some m ∧
      ar = (wire (resolvedConfig opts) cfg
              ([m] ++ (resolvedConfig opts).additionalApps ++
                metricsTail (resolvedConfig opts).metricsApp)).1 := by
  cases mainApp with
  | none => simp [NewAppRunner] at h
  | some m =>
    refine ⟨m, rfl, ?_⟩
    rw [NewAppRunner_some] at h
    cases hm : (resolvedConfig opts).metricsApp with
    | none =>
      rw [hm] at h
      simp only [Except.ok.injEq] at h
      simp [metricsTail, ← h]
    | some x =>
      rw [hm] at h
      simp only at h
      split at h
      · simp at h
      · simp only [Except.ok.injEq] at h
        simp [metricsTail, ← h]

/-- C9 (as stated, refuted): with the option `WithExitWait(0)` construction succeeds
and the runner holds an exit-wait of 0, which is not strictly greater than 0. -/
theorem C9_counterexample_zero_exit_wait :
    ((NewAppRunner sampleRegister [] (some appPlain) () [WithExitWait 0]).1.toOption.map
        appRunner.exitWait = some 0) ∧
    ¬ ((0 : Duration) < 0) := by
  decide

/-- C9 (amended): for every list of options, the exit-wait held by the runner, which
is the timeout of the stop context of `StopApps`, is the value of the last
`WithExitWait` option, unvalidated, and 5 seconds when no such option is given;
hence it is strictly positive when every `WithExitWait` value given is. -/
theorem C9_exit_wait_is_last_given {σ C : Type}
    (reg : σ → List Collector → Except GoError σ) (st : σ) (mainApp : Option App) (cfg : C)
    (calls : List OptionCall) (ar : appRunner)
    (h : (NewAppRunner reg st mainApp cfg (calls.map OptionCall.toOption)).1 = .ok ar) :
    ar.exitWait = lastOr (5 * Second) (calls.filterMap OptionCall.exitWait?) ∧
    (∀ ctx, ar.stopCtx ctx = Context.withTimeout ctx ar.exitWait) ∧
    (calls.filterMap OptionCall.exitWait? = [] → ar.exitWait = 5 * Second) ∧
    ((∀ d ∈ calls.filterMap OptionCall.exitWait?, 0 < d) → 0 < ar.exitWait) := by
  obtain ⟨m, -, har⟩ := NewAppRunner_ok reg st mainApp cfg _ ar h
  have hw : ar.exitWait = lastOr (5 * Second) (calls.filterMap OptionCall.exitWait?) := by
    rw [har, (wire_fst _ _ _).2.2]
    exact applyOptions_exitWait defaultConfig calls
  refine ⟨hw, fun _ => rfl, ?_, ?_⟩
  · intro hnil
    rw [hw, hnil]; rfl
  · intro hpos
    rw [hw]
    unfold lastOr
    cases hl : (calls.filterMap OptionCall.exitWait?).getLast? with
    | none => simp [Second]
    | some d =>
      simp only [Option.getD_some]
      exact hpos d (List.mem_of_getLast?_eq_some hl)

/-- C9 (amended), applied: with `WithExitWait(3s)` after `WithExitWait(0)` the runner
holds 3 seconds. -/
theorem C9_exit_wait_is_last_given_witness :
    (NewAppRunner sampleRegister [] (some appPlain) ()
        ([OptionCall.exitWait 0, OptionCall.exitWait (3 * Second)].map
          OptionCall.toOption)).1 = .ok sampleRunnerC9 ∧
    (sampleRunnerC9.exitWait
        = lastOr (5 * Second)
            ([OptionCall.exitWait 0, OptionCall.exitWait (3 * Second)].filterMap
              OptionCall.exitWait?)) ∧
    (∀ ctx, sampleRunnerC9.stopCtx ctx = Context.withTimeout ctx sampleRunnerC9.exitWait) ∧
    (([OptionCall.exitWait 0, OptionCall.exitWait (3 * Second)].filterMap
        OptionCall.exitWait?) = [] → sampleRunnerC9.exitWait = 5 * Second) ∧
    ((∀ d ∈ [OptionCall.exitWait 0, OptionCall.exitWait (3 * Second)].filterMap
        OptionCall.exitWait?, 0 < d) → 0 < sampleRunnerC9.exitWait) :=
  ⟨rfl, C9_exit_wait_is_last_given sampleRegister [] (some appPlain) ()
    [OptionCall.exitWait 0, OptionCall.exitWait (3 * Second)] sampleRunnerC9 rfl⟩

theorem registerCollectors_cons_fst {σ C : Type}
    (reg : σ → List Collector → Except GoError σ) (m : MetricsServerApp) (st : σ)
    (a : App) (rest : List App) :
    (@registerCollectors σ C reg m st (a :: rest)).1 =
      if a.metricsSetter = true then
        match reg st a.collectors with
        | .error regErr => .error regErr
        | .ok st2 => (@registerCollectors σ C reg m st2 rest).1
      else (@registerCollectors σ C reg m st rest).1 := by
  rw [registerCollectors]
  by_cases ha : a.metricsSetter = true
  · simp only [ha, if_true]
    cases reg st a.collectors <;> rfl
  · simp only [ha]
    rfl

theorem registerCollectors_fst_irrel {σ C D : Type}
    (reg : σ → List Collector → Except GoError σ) (m : MetricsServerApp) (st : σ)
    (apps : List App) :
    (@registerCollectors σ C reg m st apps).1 = (@registerCollectors σ D reg m st apps).1 := by
  induction apps generalizing st with
  | nil => rfl
  | cons a rest ih =>
    rw [registerCollectors_cons_fst, registerCollectors_cons_fst]
    by_cases ha : a.metricsSetter = true
    · simp only [ha, if_true]
      cases reg st a.collectors with
      | error e => rfl
      | ok st2 => exact ih st2
    · simp only [ha]
      exact ih st

theorem registerCollectors_append {σ C : Type}
    (reg : σ → List Collector → Except GoError σ) (m : MetricsServerApp) (st st2 : σ)
    (pre rest : List App) (h : (@registerCollectors σ C reg m st pre).1 = .ok st2) :
    (@registerCollectors σ C reg m st (pre ++ rest)).1
      = (@registerCollectors σ C reg m st2 rest).1 := by
  induction pre generalizing st with
  | nil =>
    simp only [registerCollectors, Except.ok.injEq] at h
    rw [h]; rfl
  | cons a pre ih =>
    rw [List.cons_append, registerCollectors_cons_fst]
    rw [registerCollectors_cons_fst] at h
    by_cases ha : a.metricsSetter = true
    · simp only [ha, if_true] at h ⊢
      cases hr : reg st a.collectors with
      | error e => rw [hr] at h; simp at h
      | ok st3 =>
        rw [hr] at h
        exact ih st3 h
    · simp only [ha] at h ⊢
      exact ih st h

theorem registerCollectors_error_iff {σ C : Type}
    (reg : σ → List Collector → Except GoError σ) (m : MetricsServerApp) (st : σ)
    (apps : List App) :
    (∃ e, (@registerCollectors σ C reg m st apps).1 = .error e)
      ↔ registrationFails reg m st apps := by
  constructor
  · intro h
    induction apps generalizing st with
    | nil => obtain ⟨e, he⟩ := h; simp [registerCollectors] at he
    | cons a rest ih =>
      obtain ⟨e, he⟩ := h
      rw [registerCollectors_cons_fst] at he
      by_cases ha : a.metricsSetter = true
      · simp only [ha, if_true] at he
        cases hr : reg st a.collectors with
        | error e2 => exact ⟨[], a, rest, st, e2, rfl, ha, rfl, hr⟩
        | ok st3 =>
          rw [hr] at he
          obtain ⟨pre, b, post, st2, e2, hl, hb, hpre, hreg⟩ := ih st3 ⟨e, he⟩
          refine ⟨a :: pre, b, post, st2, e2, by rw [hl]; rfl, hb, ?_, hreg⟩
          rw [registerCollectors_cons_fst]
          simp only [ha, if_true, hr]
          exact hpre
      · simp only [ha] at he
        obtain ⟨pre, b, post, st2, e2, hl, hb, hpre, hreg⟩ := ih st ⟨e, he⟩
        refine ⟨a :: pre, b, post, st2, e2, by rw [hl]; rfl, hb, ?_, hreg⟩
        rw [registerCollectors_cons_fst]
        simp only [ha]
        exact hpre
  · rintro ⟨pre, a, post, st2, e, hl, ha, hpre, hreg⟩
    refine ⟨e, ?_⟩
    rw [hl, registerCollectors_append reg m st st2 pre (a :: post)
      ((registerCollectors_fst_irrel reg m st pre).trans hpre)]
    rw [registerCollectors_cons_fst]
    simp only [ha, if_true, hreg]

theorem constructionFails_iff {σ C : Type} (reg : σ → List Collector → Except GoError σ)
    (st : σ) (mainApp : Option App) (cfg : C) (opts : List RunnerOption) :
    (∃ e, (NewAppRunner reg st mainApp cfg opts).1 = .error e)
      ↔ constructionFails reg st mainApp opts := by
  cases mainApp with
  | none => simp [NewAppRunner, constructionFails]
  | some m =>
    rw [NewAppRunner_some]
    unfold constructionFails
    cases hm : (resolvedConfig opts).metricsApp with
    | none => simp
    | some x =>
      constructor
      · rintro ⟨e, he⟩
        right
        refine ⟨m, x, rfl, rfl, ?_⟩
        apply (@registerCollectors_error_iff σ C reg x st _).1
        dsimp only at he
        split at he
        · next regErr calls heq => exact ⟨regErr, by rw [heq]⟩
        · simp at he
      · rintro (h | ⟨m2, y, hm2, hy, hf⟩)
        · cases h
        · cases hm2
          cases hy
          obtain ⟨regErr, he⟩ := (@registerCollectors_error_iff σ C reg x st _).2 hf
          refine ⟨fmtErrorf "error registering prometheus collector" regErr, ?_⟩
          dsimp only
          split
          · next regErr2 calls heq =>
            rw [heq] at he
            simp only [Except.error.injEq] at he
            rw [he]
          · next st2 calls heq =>
            rw [heq] at he
            simp at he

/-- C2: `NewAppRunner` returns a construction error, and no runner, exactly when
the main subsystem is nil, or a metrics subsystem is configured and registering
the collectors of some metrics-exporting subsystem of `[main] + additional` fails;
in every other case, in particular for a non-nil main without metrics subsystem
whatever the other options, it returns a runner and a nil error. With a nil main
the error is returned whatever the options are and without any call. -/
theorem C2_construction_error_iff {σ C : Type}
    (reg : σ → List Collector → Except GoError σ) (st : σ) (mainApp : Option App) (cfg : C)
    (opts : List RunnerOption) :
    ((∃ e, (NewAppRunner reg st mainApp cfg opts).1 = .error e)
      ↔ constructionFails reg st mainApp opts) ∧
    ((∃ ar, (NewAppRunner reg st mainApp cfg opts).1 = .ok ar)
      ↔ ¬ constructionFails reg st mainApp opts) ∧
    (∀ m, mainApp = some m → (resolvedConfig opts).metricsApp = none →
      ∃ ar, (NewAppRunner reg st mainApp cfg opts).1 = .ok ar) ∧
    (∀ opts2 : List RunnerOption,
      NewAppRunner reg st none cfg opts2 = (.error (.leaf "mainApp cannot be nil"), [])) := by
  have h1 := constructionFails_iff reg st mainApp cfg opts
  have h2 : (∃ ar, (NewAppRunner reg st mainApp cfg opts).1 = .ok ar)
      ↔ ¬ constructionFails reg st mainApp opts := by
    rw [← h1]
    cases (NewAppRunner reg st mainApp cfg opts).1 <;> simp
  refine ⟨h1, h2, ?_, fun _ => rfl⟩
  intro m hm hnone
  rw [h2]
  rintro (h | ⟨m2, x, -, hx, -⟩)
  · rw [hm] at h; cases h
  · rw [hnone] at hx; cases hx

theorem injectLogConf_logger {C : Type} (lg : Logger) (cfg : C) (apps : List App) :
    (injectLogConf lg cfg apps).filterMap Call.logger?
      = (apps.filter (fun a => a.loggable)).map (fun a => (a, lg)) := by
  induction apps with
  | nil => rfl
  | cons a rest ih =>
    simp only [injectLogConf, List.filterMap_append, ih, List.filter_cons]
    cases a.loggable <;> cases a.configSetter <;> simp [Call.logger?]

theorem injectLogConf_conf {C : Type} (lg : Logger) (cfg : C) (apps : List App) :
    (injectLogConf lg cfg apps).filterMap Call.conf?
      = (apps.filter (fun a => a.configSetter)).map (fun a => (a, cfg)) := by
  induction apps with
  | nil => rfl
  | cons a rest ih =>
    simp only [injectLogConf, List.filterMap_append, ih, List.filter_cons]
    cases a.loggable <;> cases a.configSetter <;> simp [Call.conf?]

theorem injectLogConf_tracer {C : Type} (lg : Logger) (cfg : C) (apps : List App) :
    (injectLogConf lg cfg apps).filterMap Call.tracer? = [] := by
  induction apps with
  | nil => rfl
  | cons a rest ih =>
    simp only [injectLogConf, List.filterMap_append, ih]
    cases a.loggable <;> cases a.configSetter <;> simp [Call.tracer?]

theorem injectTracer_tracer {C : Type} (tp : TracerProviderImpl) (apps : List App) :
    (@injectTracer C tp apps).filterMap Call.tracer?
      = (apps.filter (fun a => a.traceable)).map (fun a => (a, tp)) := by
  induction apps with
  | nil => rfl
  | cons a rest ih =>
    simp only [injectTracer, List.filterMap_append, ih, List.filter_cons]
    cases a.traceable <;> simp [Call.tracer?]

theorem injectTracer_logger_conf {C : Type} (tp : TracerProviderImpl) (apps : List App) :
    (@injectTracer C tp apps).filterMap Call.logger? = [] ∧
    (@injectTracer C tp apps).filterMap Call.conf? = [] := by
  induction apps with
  | nil => exact ⟨rfl, rfl⟩
  | cons a rest ih =>
    simp only [injectTracer, List.filterMap_append, ih.1, ih.2]
    cases a.traceable <;> simp [Call.logger?, Call.conf?]

theorem registerCollectors_no_injection {σ C : Type}
    (reg : σ → List Collector → Except GoError σ) (m : MetricsServerApp) (st : σ)
    (apps : List App) :
    (@registerCollectors σ C reg m st apps).2.filterMap Call.logger? = [] ∧
    (@registerCollectors σ C reg m st apps).2.filterMap Call.conf? = [] ∧
    (@registerCollectors σ C reg m st apps).2.filterMap Call.tracer? = [] := by
  induction apps generalizing st with
  | nil => exact ⟨rfl, rfl, rfl⟩
  | cons a rest ih =>
    rw [registerCollectors]
    by_cases ha : a.metricsSetter = true
    · simp only [ha, if_true]
      cases reg st a.collectors with
      | error e => exact ⟨rfl, rfl, rfl⟩
      | ok st2 =>
        obtain ⟨h1, h2, h3⟩ := ih st2
        simp [Call.logger?, Call.conf?, Call.tracer?, h1, h2, h3]
    · simp only [ha]
      exact ih st

theorem wire_calls {C : Type} (config : appRunnerConfig) (cfg : C) (apps : List App) :
    (wire config cfg apps).2.filterMap Call.logger?
      = (apps.filter (fun a => a.loggable)).map (fun a => (a, config.log)) ∧
    (wire config cfg apps).2.filterMap Call.conf?
      = (apps.filter (fun a => a.configSetter)).map (fun a => (a, cfg)) ∧
    (wire config cfg apps).2.filterMap Call.tracer?
      = match config.tracerProvider with
        | some tp => (apps.filter (fun a => a.traceable)).map (fun a => (a, tp))
        | none => [] := by
  unfold wire
  cases config.tracerProvider with
  | none =>
    exact ⟨injectLogConf_logger _ _ _, injectLogConf_conf _ _ _, injectLogConf_tracer _ _ _⟩
  | some tp =>
    simp only [List.filterMap_append, List.filterMap_cons, injectLogConf_logger,
      injectLogConf_conf, injectLogConf_tracer, injectTracer_tracer,
      (injectTracer_logger_conf tp apps).1, (injectTracer_logger_conf tp apps).2,
      Call.logger?, Call.conf?, Call.tracer?, List.append_nil, List.nil_append, and_self]

theorem NewAppRunner_ok_calls {σ C : Type} (reg : σ → List Collector → Except GoError σ)
    (st : σ) (mainApp : Option App) (cfg : C) (opts : List RunnerOption) (ar : appRunner)
    (h : (NewAppRunner reg st mainApp cfg opts).1 = .ok ar) :
    ∃ pre, (NewAppRunner reg st mainApp cfg opts).2
        = pre ++ (wire (resolvedConfig opts) cfg ar.apps).2 ∧
      pre.filterMap Call.logger? = [] ∧ pre.filterMap Call.conf? = [] ∧
      pre.filterMap Call.tracer? = [] := by
  cases mainApp with
  | none => simp [NewAppRunner] at h
  | some m =>
    rw [NewAppRunner_some] at h ⊢
    cases hm : (resolvedConfig opts).metricsApp with
    | none =>
      rw [hm] at h
      simp only [Except.ok.injEq] at h
      refine ⟨[], ?_, rfl, rfl, rfl⟩
      rw [← h, (wire_fst _ _ _).1]
      rfl
    | some x =>
      rw [hm] at h
      dsimp only at h ⊢
      have hreg := @registerCollectors_no_injection σ C reg x st
        ([m] ++ (resolvedConfig opts).additionalApps)
      split at h
      · simp at h
      · next st2 calls heq =>
        simp only [Except.ok.injEq] at h
        rw [heq] at hreg
        refine ⟨calls, ?_, hreg⟩
        rw [← h, (wire_fst _ _ _).1]

theorem count_map_fst_filter {β : Type} (p : App → Bool) (b : β) (apps : List App) (a : App) :
    (((apps.filter p).map (fun x => (x, b))).map Prod.fst).count a
      = if p a = true then apps.count a else 0 := by
  rw [List.map_map]
  have hid : (Prod.fst ∘ fun x : App => (x, b)) = id := rfl
  rw [hid, List.map_id]
  by_cases hp : p a = true
  · rw [if_pos hp, List.count_filter hp]
  · rw [if_neg hp, List.count_eq_zero]
    intro hmem
    exact hp (List.mem_filter.1 hmem).2

/-- C8 (as stated, refuted): with `WithTracerProvider(nil)` a subsystem of the final
list that exposes the tracer capability receives no tracer-provider injection. -/
theorem C8_counterexample_nil_tracer_provider :
    (NewAppRunner sampleRegister [] (some appAll) () [WithTracerProvider none]).1.toOption.map
        appRunner.apps = some [appAll] ∧
    appAll.traceable = true ∧
    ((NewAppRunner sampleRegister [] (some appAll) () [WithTracerProvider none]).2.filterMap
        Call.tracer?).length = 0 := by
  decide

/-- C8 (amended): for every successful construction, the logger injections are, in
list order, one call with the resolved logger per entry of the final list that
exposes the logger capability, the configuration injections one call with the
shared configuration value per entry that exposes the config capability, and the
tracer injections one call with the configured tracer provider per entry that
exposes the tracer capability when that provider is not nil, and none at all
when it is nil. So a subsystem receives as many calls of a kind as it has
entries in the list when it has the capability (for the tracer: and the provider
is not nil), and none otherwise. -/
theorem C8_injection_calls {σ C : Type} (reg : σ → List Collector → Except GoError σ)
    (st : σ) (mainApp : Option App) (cfg : C) (opts : List RunnerOption) (ar : appRunner)
    (h : (NewAppRunner reg st mainApp cfg opts).1 = .ok ar) :
    ar.log = (resolvedConfig opts).log ∧
    (NewAppRunner reg st mainApp cfg opts).2.filterMap Call.logger?
      = (ar.apps.filter (fun a => a.loggable)).map (fun a => (a, ar.log)) ∧
    (NewAppRunner reg st mainApp cfg opts).2.filterMap Call.conf?
      = (ar.apps.filter (fun a => a.configSetter)).map (fun a => (a, cfg)) ∧
    (NewAppRunner reg st mainApp cfg opts).2.filterMap Call.tracer?
      = (match (resolvedConfig opts).tracerProvider with
        | some tp => (ar.apps.filter (fun a => a.traceable)).map (fun a => (a, tp))
        | none => []) ∧
    (∀ a : App,
      (((NewAppRunner reg st mainApp cfg opts).2.filterMap Call.logger?).map Prod.fst).count a
        = (if a.loggable = true then ar.apps.count a else 0) ∧
      (((NewAppRunner reg st mainApp cfg opts).2.filterMap Call.conf?).map Prod.fst).count a
        = (if a.configSetter = true then ar.apps.count a else 0) ∧
      (((NewAppRunner reg st mainApp cfg opts).2.filterMap Call.tracer?).map Prod.fst).count a
        = (if a.traceable = true ∧ (resolvedConfig opts).tracerProvider ≠ none
            then ar.apps.count a else 0)) := by
  obtain ⟨pre, hcalls, hp1, hp2, hp3⟩ := NewAppRunner_ok_calls reg st mainApp cfg opts ar h
  obtain ⟨m, -, har⟩ := NewAppRunner_ok reg st mainApp cfg opts ar h
  have hlog : ar.log = (resolvedConfig opts).log := by rw [har]; exact (wire_fst _ _ _).2.1
  obtain ⟨hw1, hw2, hw3⟩ := wire_calls (resolvedConfig opts) cfg ar.apps
  have e1 : (NewAppRunner reg st mainApp cfg opts).2.filterMap Call.logger?
      = (ar.apps.filter (fun a => a.loggable)).map (fun a => (a, ar.log)) := by
    rw [hcalls, List.filterMap_append, hp1, hw1, hlog]; rfl
  have e2 : (NewAppRunner reg st mainApp cfg opts).2.filterMap Call.conf?
      = (ar.apps.filter (fun a => a.configSetter)).map (fun a => (a, cfg)) := by
    rw [hcalls, List.filterMap_append, hp2, hw2]; rfl
  have e3 : (NewAppRunner reg st mainApp cfg opts).2.filterMap Call.tracer?
      = (match (resolvedConfig opts).tracerProvider with
        | some tp => (ar.apps.filter (fun a => a.traceable)).map (fun a => (a, tp))
        | none => []) := by
    rw [hcalls, List.filterMap_append, hp3, hw3]; rfl
  refine ⟨hlog, e1, e2, e3, ?_⟩
  intro a
  refine ⟨?_, ?_, ?_⟩
  · rw [e1]; exact count_map_fst_filter (fun a => a.loggable) ar.log ar.apps a
  · rw [e2]; exact count_map_fst_filter (fun a => a.configSetter) cfg ar.apps a
  · rw [e3]
    cases htp : (resolvedConfig opts).tracerProvider with
    | none => simp
    | some tp =>
      have := count_map_fst_filter (fun a => a.traceable) tp ar.apps a
      simpa using this

/-- C8 (amended), applied to `appLog` with additional `appAll`, `appPlain` and a
metrics subsystem: the logger-only `appLog` receives one logger call and no
config or tracer call, the capability-free `appPlain` receives no call. -/
theorem C8_injection_calls_witness :
    (NewAppRunner sampleRegister [] (some appLog) () sampleOptsC7).1 = .ok sampleRunnerC7 ∧
    ((((NewAppRunner sampleRegister [] (some appLog) () sampleOptsC7).2.filterMap
        Call.logger?).map Prod.fst).count appLog = 1 ∧
     (((NewAppRunner sampleRegister [] (some appLog) () sampleOptsC7).2.filterMap
        Call.conf?).map Prod.fst).count appLog = 0 ∧
     (((NewAppRunner sampleRegister [] (some appLog) () sampleOptsC7).2.filterMap
        Call.tracer?).map Prod.fst).count appLog = 0) ∧
    ((((NewAppRunner sampleRegister [] (some appLog) () sampleOptsC7).2.filterMap
        Call.logger?).map Prod.fst).count appPlain = 0 ∧
     (((NewAppRunner sampleRegister [] (some appLog) () sampleOptsC7).2.filterMap
        Call.conf?).map Prod.fst).count appPlain = 0 ∧
     (((NewAppRunner sampleRegister [] (some appLog) () sampleOptsC7).2.filterMap
        Call.tracer?).map Prod.fst).count appPlain = 0) :=
  ⟨rfl,
   ⟨((C8_injection_calls sampleRegister [] (some appLog) () sampleOptsC7 sampleRunnerC7
        rfl).2.2.2.2 appLog).1.trans (by decide),
    ((C8_injection_calls sampleRegister [] (some appLog) () sampleOptsC7 sampleRunnerC7
        rfl).2.2.2.2 appLog).2.1.trans (by decide),
    ((C8_injection_calls sampleRegister [] (some appLog) () sampleOptsC7 sampleRunnerC7
        rfl).2.2.2.2 appLog).2.2.trans (by decide)⟩,
   ⟨((C8_injection_calls sampleRegister [] (some appLog) () sampleOptsC7 sampleRunnerC7
        rfl).2.2.2.2 appPlain).1.trans (by decide),
    ((C8_injection_calls sampleRegister [] (some appLog) () sampleOptsC7 sampleRunnerC7
        rfl).2.2.2.2 appPlain).2.1.trans (by decide),
    ((C8_injection_calls sampleRegister [] (some appLog) () sampleOptsC7 sampleRunnerC7
        rfl).2.2.2.2 appPlain).2.2.trans (by decide)⟩⟩

theorem goAppend_preserves (grow : Nat → Nat → Nat) (h : Heap) (s : Slice)
    (xs : List (Option App)) (n : Nat) (hn : n ≤ h.length) (hs : n ≤ s.arr) :
    n ≤ (goAppend grow h s xs).1.length ∧ n ≤ (goAppend grow h s xs).2.arr ∧
    ∀ k, k < n → (goAppend grow h s xs).1[k]? = h[k]? := by
  unfold goAppend
  split
  · refine ⟨by simpa using hn, hs, ?_⟩
    intro k hk
    exact List.getElem?_set_ne (by omega)
  · refine ⟨by simp; omega, hn, ?_⟩
    intro k hk
    exact List.getElem?_append_left (by omega)

theorem buildAppsSlice_preserves (grow : Nat → Nat → Nat) (h : Heap) (mainApp : App)
    (additionalApps : Slice) (metricsApp : Option MetricsServerApp) (k : Nat)
    (hk : k < h.length) :
    (buildAppsSlice grow h mainApp additionalApps metricsApp).1[k]? = h[k]? := by
  have h1 : ∀ j, j < h.length → (h ++ [[some mainApp]])[j]? = h[j]? :=
    fun j hj => List.getElem?_append_left hj
  have hr : h.length ≤ (if additionalApps.len > 0
        then goAppend grow (h ++ [[some mainApp]]) { arr := h.length, off := 0, len := 1, cap := 1 }
          ((h ++ [[some mainApp]] : Heap).elems additionalApps)
        else (h ++ [[some mainApp]], { arr := h.length, off := 0, len := 1, cap := 1 })).1.length ∧
      h.length ≤ (if additionalApps.len > 0
        then goAppend grow (h ++ [[some mainApp]]) { arr := h.length, off := 0, len := 1, cap := 1 }
          ((h ++ [[some mainApp]] : Heap).elems additionalApps)
        else (h ++ [[some mainApp]], { arr := h.length, off := 0, len := 1, cap := 1 })).2.arr ∧
      ∀ j, j < h.length → (if additionalApps.len > 0
        then goAppend grow (h ++ [[some mainApp]]) { arr := h.length, off := 0, len := 1, cap := 1 }
          ((h ++ [[some mainApp]] : Heap).elems additionalApps)
        else (h ++ [[some mainApp]], { arr := h.length, off := 0, len := 1, cap := 1 })).1[j]?
          = h[j]? := by
    split
    · obtain ⟨a, b, c⟩ := goAppend_preserves grow (h ++ [[some mainApp]])
        { arr := h.length, off := 0, len := 1, cap := 1 }
        ((h ++ [[some mainApp]] : Heap).elems additionalApps) h.length (by simp) (le_refl _)
      exact ⟨a, b, fun j hj => (c j hj).trans (h1 j hj)⟩
    · exact ⟨by simp, le_refl _, h1⟩
  unfold buildAppsSlice
  cases metricsApp with
  | none => exact hr.2.2 k hk
  | some m =>
    obtain ⟨-, -, c⟩ := goAppend_preserves grow _ _ [some m.asApp] h.length hr.1 hr.2.1
    exact (c k hk).trans (hr.2.2 k hk)

theorem elems_length (h : Heap) (s : Slice) (hw : h.wellFormed s) :
    (h.elems s).length = s.len := by
  obtain ⟨-, h2, h3⟩ := hw
  simp only [Heap.elems, List.length_take, List.length_drop]
  omega

theorem goAppend_elems (grow : Nat → Nat → Nat) (h : Heap) (s : Slice)
    (xs : List (Option App)) (hw : h.wellFormed s) :
    (goAppend grow h s xs).1.elems (goAppend grow h s xs).2 = h.elems s ++ xs ∧
    (goAppend grow h s xs).1.wellFormed (goAppend grow h s xs).2 := by
  have hlen := elems_length h s hw
  obtain ⟨h1, h2, h3⟩ := hw
  unfold goAppend
  split
  · next hfit =>
    have hget : (h.set s.arr ((h.getD s.arr []).take (s.off + s.len) ++ xs ++
        (h.getD s.arr []).drop (s.off + s.len + xs.length))).getD s.arr []
        = (h.getD s.arr []).take (s.off + s.len) ++ xs ++
          (h.getD s.arr []).drop (s.off + s.len + xs.length) := by
      simp [List.getD_eq_getElem?_getD, h1]
    constructor
    · simp only [Heap.elems, hget]
      have ht : ((h.getD s.arr []).take (s.off + s.len)).length = s.off + s.len := by
        simp only [List.length_take]; omega
      rw [List.append_assoc, List.drop_append_of_le_length (by omega)]
      rw [← List.take_drop]
      rw [← List.append_assoc]
      apply List.take_left'
      simp only [List.length_append, List.length_take, List.length_drop]
      omega
    · refine ⟨by simpa using h1, ?_, hfit⟩
      rw [hget]
      simp only [List.length_append, List.length_take, List.length_drop]
      omega
  · next hfit =>
    have hget : (h ++ [h.elems s ++ xs ++ List.replicate
        (max (s.len + xs.length) (grow s.cap (s.len + xs.length)) - (s.len + xs.length)) none]).getD
        h.length [] = h.elems s ++ xs ++ List.replicate
        (max (s.len + xs.length) (grow s.cap (s.len + xs.length)) - (s.len + xs.length)) none := by
      simp [List.getD_eq_getElem?_getD]
    constructor
    · simp only [Heap.elems] at hget hlen ⊢
      rw [hget, List.drop_zero]
      apply List.take_left'
      simp only [List.length_append]
      omega
    · refine ⟨by simp, ?_, le_max_left _ _⟩
      rw [hget]
      simp only [List.length_append, List.length_replicate, hlen]
      omega

theorem buildAppsSlice_elems (grow : Nat → Nat → Nat) (h : Heap) (mainApp : App)
    (additionalApps : Slice) (metricsApp : Option MetricsServerApp) (adds : List App)
    (hadds : h.elems additionalApps = adds.map some) (hlen : adds.length = additionalApps.len) :
    (buildAppsSlice grow h mainApp additionalApps metricsApp).1.elems
        (buildAppsSlice grow h mainApp additionalApps metricsApp).2
      = ([mainApp] ++ adds ++ metricsTail metricsApp).map some := by
  have hw0 : (h ++ [[some mainApp]] : Heap).wellFormed
      { arr := h.length, off := 0, len := 1, cap := 1 } := by
    refine ⟨by simp, ?_, le_refl _⟩
    simp [List.getD_eq_getElem?_getD]
  have he0 : (h ++ [[some mainApp]] : Heap).elems
      { arr := h.length, off := 0, len := 1, cap := 1 } = [some mainApp] := by
    simp [Heap.elems, List.getD_eq_getElem?_getD]
  have hr : (if additionalApps.len > 0
        then goAppend grow (h ++ [[some mainApp]]) { arr := h.length, off := 0, len := 1, cap := 1 }
          ((h ++ [[some mainApp]] : Heap).elems additionalApps)
        else (h ++ [[some mainApp]], { arr := h.length, off := 0, len := 1, cap := 1 })).1.elems
      (if additionalApps.len > 0
        then goAppend grow (h ++ [[some mainApp]]) { arr := h.length, off := 0, len := 1, cap := 1 }
          ((h ++ [[some mainApp]] : Heap).elems additionalApps)
        else (h ++ [[some mainApp]], { arr := h.length, off := 0, len := 1, cap := 1 })).2
        = ([mainApp] ++ adds).map some ∧
      (if additionalApps.len > 0
        then goAppend grow (h ++ [[some mainApp]]) { arr := h.length, off := 0, len := 1, cap := 1 }
          ((h ++ [[some mainApp]] : Heap).elems additionalApps)
        else (h ++ [[some mainApp]], { arr := h.length, off := 0, len := 1, cap := 1 })).1.wellFormed
      (if additionalApps.len > 0
        then goAppend grow (h ++ [[some mainApp]]) { arr := h.length, off := 0, len := 1, cap := 1 }
          ((h ++ [[some mainApp]] : Heap).elems additionalApps)
        else (h ++ [[some mainApp]], { arr := h.length, off := 0, len := 1, cap := 1 })).2 := by
    split
    · next hpos =>
      have harr : additionalApps.arr < h.length := by
        by_contra hge
        have hnil : h.elems additionalApps = [] := by
          simp [Heap.elems, List.getD_eq_getElem?_getD, List.getElem?_eq_none (not_lt.1 hge)]
        rw [hnil] at hadds
        have : adds.length = 0 := by
          have := congrArg List.length hadds
          simpa using this.symm
        omega
      have hsame : (h ++ [[some mainApp]] : Heap).elems additionalApps
          = h.elems additionalApps := by
        simp [Heap.elems, List.getD_eq_getElem?_getD, List.getElem?_append_left harr]
      obtain ⟨e, w⟩ := goAppend_elems grow (h ++ [[some mainApp]])
        { arr := h.length, off := 0, len := 1, cap := 1 }
        ((h ++ [[some mainApp]] : Heap).elems additionalApps) hw0
      refine ⟨?_, w⟩
      rw [e, he0, hsame, hadds]
      simp
    · next hzero =>
      have hnil : adds = [] := List.length_eq_zero.1 (by omega)
      refine ⟨?_, hw0⟩
      rw [hnil]
      exact he0
  unfold buildAppsSlice
  cases metricsApp with
  | none => simpa [metricsTail] using hr.1
  | some m =>
    obtain ⟨e, -⟩ := goAppend_elems grow _ _ [some m.asApp] hr.2
    dsimp only
    rw [e, hr.1]
    simp [metricsTail]

/-- C7: for every successful construction the subsystem list of the runner is
`[main]`, then the configured additional subsystems in their order, then the
metrics subsystem exactly when one is configured: main is at index 0, the
metrics subsystem, when configured, is last, the length is
`1 + len(additional) + (1 if metrics configured else 0)`; and on slice headers and
backing arrays the list that lines 95-98 and 112 build has these elements while
every backing array that existed before the call, so the slice of additional
subsystems of the caller, is left unchanged. -/
theorem C7_subsystem_list {σ C : Type} (reg : σ → List Collector → Except GoError σ)
    (st : σ) (mainApp : Option App) (cfg : C) (opts : List RunnerOption) (ar : appRunner)
    (h : (NewAppRunner reg st mainApp cfg opts).1 = .ok ar) :
    ∃ m, mainApp = some m ∧
      ar.apps = [m] ++ (resolvedConfig opts).additionalApps
                  ++ metricsTail (resolvedConfig opts).metricsApp ∧
      ar.apps[0]? = some m ∧
      (∀ x, (resolvedConfig opts).metricsApp = some x → ar.apps.getLast? = some x.asApp) ∧
      ((resolvedConfig opts).metricsApp = none →
        ar.apps = [m] ++ (resolvedConfig opts).additionalApps) ∧
      ar.apps.length = 1 + (resolvedConfig opts).additionalApps.length
                        + (if (resolvedConfig opts).metricsApp.isSome then 1 else 0) ∧
      (∀ (grow : Nat → Nat → Nat) (heap : Heap) (additionalApps : Slice),
        heap.elems additionalApps = (resolvedConfig opts).additionalApps.map some →
        (resolvedConfig opts).additionalApps.length = additionalApps.len →
        (buildAppsSlice grow heap m additionalApps (resolvedConfig opts).metricsApp).1.elems
            (buildAppsSlice grow heap m additionalApps (resolvedConfig opts).metricsApp).2
          = ar.apps.map some ∧
        ∀ k, k < heap.length →
          (buildAppsSlice grow heap m additionalApps (resolvedConfig opts).metricsApp).1[k]?
            = heap[k]?) := by
  obtain ⟨m, hm, har⟩ := NewAppRunner_ok reg st mainApp cfg opts ar h
  have happs : ar.apps = [m] ++ (resolvedConfig opts).additionalApps
      ++ metricsTail (resolvedConfig opts).metricsApp := by
    rw [har]; exact (wire_fst _ _ _).1
  refine ⟨m, hm, happs, ?_, ?_, ?_, ?_, ?_⟩
  · rw [happs]; simp
  · intro x hx
    rw [happs, hx]
    show ([m] ++ (resolvedConfig opts).additionalApps ++ [x.asApp]).getLast? = some x.asApp
    exact List.getLast?_append_of_ne_nil _ (by simp) |>.trans (by simp)
  · intro hnone
    rw [happs, hnone]
    simp [metricsTail]
  · rw [happs]
    cases (resolvedConfig opts).metricsApp <;> simp [metricsTail] <;> omega
  · intro grow heap additionalApps hadds hlen
    refine ⟨?_, fun k hk => buildAppsSlice_preserves grow heap m additionalApps _ k hk⟩
    rw [happs]
    exact buildAppsSlice_elems grow heap m additionalApps _ _ hadds hlen

/-- C7, applied to `appLog` with additional `appAll`, `appPlain` and the metrics
subsystem `sampleMetrics`. -/
theorem C7_subsystem_list_witness :
    (NewAppRunner sampleRegister [] (some appLog) () sampleOptsC7).1 = .ok sampleRunnerC7 ∧
    ∃ m, some appLog = some m ∧
      sampleRunnerC7.apps = [m] ++ (resolvedConfig sampleOptsC7).additionalApps
                  ++ metricsTail (resolvedConfig sampleOptsC7).metricsApp ∧
      sampleRunnerC7.apps[0]? = some m ∧
      (∀ x, (resolvedConfig sampleOptsC7).metricsApp = some x →
        sampleRunnerC7.apps.getLast? = some x.asApp) ∧
      ((resolvedConfig sampleOptsC7).metricsApp = none →
        sampleRunnerC7.apps = [m] ++ (resolvedConfig sampleOptsC7).additionalApps) ∧
      sampleRunnerC7.apps.length = 1 + (resolvedConfig sampleOptsC7).additionalApps.length
                        + (if (resolvedConfig sampleOptsC7).metricsApp.isSome then 1 else 0) ∧
      (∀ (grow : Nat → Nat → Nat) (heap : Heap) (additionalApps : Slice),
        heap.elems additionalApps = (resolvedConfig sampleOptsC7).additionalApps.map some →
        (resolvedConfig sampleOptsC7).additionalApps.length = additionalApps.len →
        (buildAppsSlice grow heap m additionalApps (resolvedConfig sampleOptsC7).metricsApp).1.elems
            (buildAppsSlice grow heap m additionalApps
              (resolvedConfig sampleOptsC7).metricsApp).2
          = sampleRunnerC7.apps.map some ∧
        ∀ k, k < heap.length →
          (buildAppsSlice grow heap m additionalApps
              (resolvedConfig sampleOptsC7).metricsApp).1[k]?
            = heap[k]?) :=
  ⟨rfl, C7_subsystem_list sampleRegister [] (some appLog) () sampleOptsC7 sampleRunnerC7 rfl⟩

/-! ## Theorems: errors -/

theorem GoError.is_self (e : GoError) : GoError.is e e = true := by
  cases e <;> simp [GoError.is]

theorem errorsIs_wrap_self (msg : String) (e : GoError) :
    errorsIs (some (fmtErrorf msg e)) (some e) = true := by
  simp [errorsIs, fmtErrorf, GoError.is, GoError.is_self]

theorem errorsIs_wrap_of (msg : String) (e t : GoError)
    (h : errorsIs (some e) (some t) = true) :
    errorsIs (some (fmtErrorf msg e)) (some t) = true := by
  simp only [errorsIs] at h
  simp [errorsIs, fmtErrorf, GoError.is, h]

theorem errorsJoin_pair (a b : GoError) : errorsJoin [some a, some b] = some (.join [a, b]) := rfl

theorem errorsIs_join_pair (a b t : GoError)
    (h : errorsIs (some a) (some t) = true ∨ errorsIs (some b) (some t) = true) :
    errorsIs (some (.join [a, b])) (some t) = true := by
  simp only [errorsIs] at h
  rcases h with h | h <;> simp [errorsIs, GoError.is, GoError.isAny, h]

/-! ## Theorems: Run -/

theorem errChanSends_mem (n : Nat) (seen : List Nat) (rs : List (Nat × Error)) (x : GoError)
    (hx : x ∈ errChanSends n seen rs) :
    ∃ i e, (i, some e) ∈ rs ∧ i < n ∧ x = fmtErrorf "error starting app" e := by
  induction rs generalizing seen with
  | nil => simp [errChanSends] at hx
  | cons r rest ih =>
    obtain ⟨i, res⟩ := r
    unfold errChanSends at hx
    split at hx
    · next hvalid =>
      cases res with
      | none =>
        obtain ⟨j, e, hm, hj, he⟩ := ih _ hx
        exact ⟨j, e, List.mem_cons_of_mem _ hm, hj, he⟩
      | some err =>
        simp only [List.mem_cons] at hx
        rcases hx with hx | hx
        · refine ⟨i, err, List.mem_cons_self _ _, ?_, hx⟩
          simp only [Bool.and_eq_true, decide_eq_true_eq] at hvalid
          exact hvalid.1
        · obtain ⟨j, e, hm, hj, he⟩ := ih _ hx
          exact ⟨j, e, List.mem_cons_of_mem _ hm, hj, he⟩
    · obtain ⟨j, e, hm, hj, he⟩ := ih _ hx
      exact ⟨j, e, List.mem_cons_of_mem _ hm, hj, he⟩

theorem selectRun_errChan (ctxDone : Bool) (chan : List GoError) (pick : Bool) (err : GoError)
    (h : selectRun ctxDone chan pick = some (.errChan err)) : chan.head? = some err := by
  cases ctxDone <;> cases chan <;> cases pick <;> simp [selectRun] at h ⊢ <;> exact h

theorem Run_of_blocked (ar : appRunner) (ctx : Context) (w : RunWorld)
    (hsel : selectRun (ctx.errAt w.ctxErr).isSome (errChanSends ar.apps.length [] w.returned)
      w.preferErrChan = none) :
    ar.Run ctx w =
      { errChan := errChanSends ar.apps.length [] w.returned, branch := none, logged := [],
        stopApps := [], result := .blocked } := by
  unfold appRunner.Run
  simp only [hsel]

theorem Run_of_ctxDone (ar : appRunner) (ctx : Context) (w : RunWorld)
    (hsel : selectRun (ctx.errAt w.ctxErr).isSome (errChanSends ar.apps.length [] w.returned)
      w.preferErrChan = some .ctxDone) :
    ar.Run ctx w =
      match ar.log with
      | none =>
        { errChan := errChanSends ar.apps.length [] w.returned, branch := some .ctxDone,
          logged := [], stopApps := [], result := .panicked }
      | some _ =>
        { errChan := errChanSends ar.apps.length [] w.returned, branch := some .ctxDone
          logged := ["Context canceled, stopping apps"]
          stopApps := [(.withoutCancel ctx, ar.StopApps (.withoutCancel ctx) none w.stopSchedule)]
          result :=
            match (ar.StopApps (.withoutCancel ctx) none w.stopSchedule).result with
            | none => .blocked
            | some (some err) => .returned (some (fmtErrorf "failed to stop apps" err))
            | some none => .returned none } := by
  unfold appRunner.Run
  simp only [hsel]

theorem Run_of_errChan (ar : appRunner) (ctx : Context) (w : RunWorld) (err : GoError)
    (hsel : selectRun (ctx.errAt w.ctxErr).isSome (errChanSends ar.apps.length [] w.returned)
      w.preferErrChan = some (.errChan err)) :
    ar.Run ctx w =
      match ar.log with
      | none =>
        { errChan := errChanSends ar.apps.length [] w.returned, branch := some (.errChan err),
          logged := [], stopApps := [], result := .panicked }
      | some _ =>
        { errChan := errChanSends ar.apps.length [] w.returned, branch := some (.errChan err)
          logged := ["App failed, stopping all apps"]
          stopApps := [(.withoutCancel ctx, ar.StopApps (.withoutCancel ctx) none w.stopSchedule)]
          result :=
            match (ar.StopApps (.withoutCancel ctx) none w.stopSchedule).result with
            | none => .blocked
            | some (some stopErr) =>
              .returned (errorsJoin [some err, some (fmtErrorf "failed to stop apps" stopErr)])
            | some none => .returned (some err) } := by
  unfold appRunner.Run
  simp only [hsel]

theorem Run_branch (ar : appRunner) (ctx : Context) (w : RunWorld) :
    (ar.Run ctx w).branch
      = selectRun (ctx.errAt w.ctxErr).isSome (errChanSends ar.apps.length [] w.returned)
          w.preferErrChan ∧
    (ar.Run ctx w).errChan = errChanSends ar.apps.length [] w.returned := by
  cases hsel : selectRun (ctx.errAt w.ctxErr).isSome
      (errChanSends ar.apps.length [] w.returned) w.preferErrChan with
  | none => rw [Run_of_blocked ar ctx w hsel]; exact ⟨rfl, rfl⟩
  | some b =>
    cases b with
    | ctxDone => rw [Run_of_ctxDone ar ctx w hsel]; cases ar.log <;> exact ⟨rfl, rfl⟩
    | errChan err => rw [Run_of_errChan ar ctx w err hsel]; cases ar.log <;> exact ⟨rfl, rfl⟩

theorem Run_ctxDone (ar : appRunner) (ctx : Context) (w : RunWorld) (s : Error)
    (hb : (ar.Run ctx w).branch = some .ctxDone) (hs : (ar.Run ctx w).stopResult = some s) :
    (s = none → (ar.Run ctx w).result = .returned none) ∧
    (∀ stopErr, s = some stopErr →
      (ar.Run ctx w).result = .returned (some (fmtErrorf "failed to stop apps" stopErr))) := by
  have hsel := (Run_branch ar ctx w).1.symm.trans hb
  rw [Run_of_ctxDone ar ctx w hsel] at hs ⊢
  cases hl : ar.log with
  | none => simp [hl, RunTrace.stopResult] at hs
  | some l =>
    simp only [hl, RunTrace.stopResult, List.head?_cons, Option.some_bind] at hs ⊢
    rw [hs]
    constructor
    · intro h; rw [h]
    · intro stopErr h; rw [h]

theorem Run_errChan (ar : appRunner) (ctx : Context) (w : RunWorld) (err : GoError) (s : Error)
    (hb : (ar.Run ctx w).branch = some (.errChan err))
    (hs : (ar.Run ctx w).stopResult = some s) :
    (s = none → (ar.Run ctx w).result = .returned (some err)) ∧
    (∀ stopErr, s = some stopErr →
      (ar.Run ctx w).result
        = .returned (errorsJoin [some err, some (fmtErrorf "failed to stop apps" stopErr)])) := by
  have hsel := (Run_branch ar ctx w).1.symm.trans hb
  rw [Run_of_errChan ar ctx w err hsel] at hs ⊢
  cases hl : ar.log with
  | none => simp [hl, RunTrace.stopResult] at hs
  | some l =>
    simp only [hl, RunTrace.stopResult, List.head?_cons, Option.some_bind] at hs ⊢
    rw [hs]
    constructor
    · intro h; rw [h]
    · intro stopErr h; rw [h]

/-- C1: the return value of `Run` is decided by the case that its `select` takes and
by the result of `StopApps`. On the cancellation branch `Run` returns nil if
`StopApps` returns nil, and otherwise the `StopApps` error wrapped. On the failure
branch the value received is the wrapped error `e` of the first subsystem whose
`Run` failed; `Run` returns a non-nil error for which `errors.Is(result, e)` holds:
the wrapped failure alone when `StopApps` returns nil, and the join of the wrapped
failure and the wrapped `StopApps` error, both recoverable, when `StopApps` fails. -/
theorem C1_run_result (ar : appRunner) (ctx : Context) (w : RunWorld) :
    (∀ s, (ar.Run ctx w).branch = some .ctxDone → (ar.Run ctx w).stopResult = some s →
      (s = none → (ar.Run ctx w).result = .returned none) ∧
      (∀ stopErr, s = some stopErr →
        (ar.Run ctx w).result = .returned (some (fmtErrorf "failed to stop apps" stopErr)) ∧
        errorsIs (some (fmtErrorf "failed to stop apps" stopErr)) (some stopErr) = true)) ∧
    (∀ err s, (ar.Run ctx w).branch = some (.errChan err) →
      (ar.Run ctx w).stopResult = some s →
      (ar.Run ctx w).errChan.head? = some err ∧
      ∃ i e, (i, some e) ∈ w.returned ∧ err = fmtErrorf "error starting app" e ∧
        ∃ r, (ar.Run ctx w).result = .returned (some r) ∧
          errorsIs (some r) (some e) = true ∧
          (s = none → r = fmtErrorf "error starting app" e) ∧
          (∀ stopErr, s = some stopErr →
            r = .join [fmtErrorf "error starting app" e,
                       fmtErrorf "failed to stop apps" stopErr] ∧
            some r = errorsJoin [some err, some (fmtErrorf "failed to stop apps" stopErr)] ∧
            errorsIs (some r) (some (fmtErrorf "error starting app" e)) = true ∧
            errorsIs (some r) (some stopErr) = true)) := by
  constructor
  · intro s hb hs
    obtain ⟨h1, h2⟩ := Run_ctxDone ar ctx w s hb hs
    exact ⟨h1, fun stopErr h => ⟨h2 stopErr h, errorsIs_wrap_self _ _⟩⟩
  · intro err s hb hs
    obtain ⟨h1, h2⟩ := Run_errChan ar ctx w err s hb hs
    obtain ⟨hbr, hch⟩ := Run_branch ar ctx w
    have hhead : (ar.Run ctx w).errChan.head? = some err := by
      rw [hch]
      exact selectRun_errChan _ _ _ _ (hbr.symm.trans hb)
    refine ⟨hhead, ?_⟩
    have hmem : err ∈ errChanSends ar.apps.length [] w.returned := by
      rw [hch] at hhead
      exact List.mem_of_mem_head? hhead
    obtain ⟨i, e, hi, -, he⟩ := errChanSends_mem _ _ _ _ hmem
    refine ⟨i, e, hi, he, ?_⟩
    cases s with
    | none =>
      refine ⟨err, h1 rfl, ?_, fun _ => he, ?_⟩
      · rw [he]; exact errorsIs_wrap_self _ _
      · intro stopErr h; cases h
    | some stopErr =>
      refine ⟨.join [err, fmtErrorf "failed to stop apps" stopErr], h2 stopErr rfl, ?_, ?_, ?_⟩
      · apply errorsIs_join_pair
        left
        rw [he]; exact errorsIs_wrap_self _ _
      · intro h; cases h
      · intro stopErr2 h
        cases h
        refine ⟨by rw [he], rfl, ?_, ?_⟩
        · apply errorsIs_join_pair
          left
          rw [he]
          simp [errorsIs, GoError.is_self]
        · apply errorsIs_join_pair
          right
          exact errorsIs_wrap_self _ _

/-- C1, applied: a cancelled context with a clean shutdown returns nil; a failure
of the second subsystem followed by a failing shutdown returns the join of both
wrapped errors. -/
theorem C1_run_result_witness :
    ((sampleRunner2.Run (.root 0 true) worldCancelClean).branch = some .ctxDone ∧
     (sampleRunner2.Run (.root 0 true) worldCancelClean).stopResult = some none ∧
     (sampleRunner2.Run (.root 0 true) worldCancelClean).result = .returned none) ∧
    ((sampleRunner2.Run (.root 0 true) worldFailStopFails).branch
        = some (.errChan (fmtErrorf "error starting app" (.leaf "listen failed"))) ∧
     (sampleRunner2.Run (.root 0 true) worldFailStopFails).stopResult
        = some (some (.join [fmtErrorf "app stop error" stopErr0])) ∧
     (sampleRunner2.Run (.root 0 true) worldFailStopFails).result
        = .returned (some (.join [fmtErrorf "error starting app" (.leaf "listen failed"),
            fmtErrorf "failed to stop apps" (.join [fmtErrorf "app stop error" stopErr0])]))) :=
  ⟨⟨rfl, rfl,
    ((C1_run_result sampleRunner2 (.root 0 true) worldCancelClean).1 none rfl rfl).1 rfl⟩,
   ⟨rfl, rfl, rfl⟩⟩

/-- C6 (as stated, refuted): the `Run` of the only subsystem returns
`context.Canceled` while the context of the orchestrator is not done; the error
is wrapped and sent on the error channel, the failure branch is taken and `Run`
returns an error for which `errors.Is(result, context.Canceled)` holds, although
the shutdown succeeds. With a nil return nothing is sent and `Run` keeps
waiting. The same result comes out when the context of the orchestrator is
cancelled too and the `select`, with both cases ready, takes the error
channel. -/
theorem C6_counterexample_canceled_is_sent :
    (sampleRunner1.Run (.root 0 true) worldCanceledReturn).errChan
      = [fmtErrorf "error starting app" contextCanceled] ∧
    (sampleRunner1.Run (.root 0 true) worldCanceledReturn).branch
      = some (.errChan (fmtErrorf "error starting app" contextCanceled)) ∧
    (sampleRunner1.Run (.root 0 true) worldCanceledReturn).stopResult = some none ∧
    (sampleRunner1.Run (.root 0 true) worldCanceledReturn).result
      = .returned (some (fmtErrorf "error starting app" contextCanceled)) ∧
    errorsIs (some (fmtErrorf "error starting app" contextCanceled)) (some contextCanceled)
      = true ∧
    (sampleRunner1.Run (.root 0 true) worldNilReturn).errChan = [] ∧
    (sampleRunner1.Run (.root 0 true) worldNilReturn).result = .blocked ∧
    (sampleRunner1.Run (.root 0 true) worldCanceledRace).branch
      = some (.errChan (fmtErrorf "error starting app" contextCanceled)) ∧
    (sampleRunner1.Run (.root 0 true) worldCanceledRace).stopResult = some none ∧
    (sampleRunner1.Run (.root 0 true) worldCanceledRace).result
      = .returned (some (fmtErrorf "error starting app" contextCanceled)) :=
  ⟨rfl, rfl, rfl, rfl, rfl, rfl, rfl, rfl, rfl, rfl⟩

theorem errChanSends_head (n : Nat) (i : Nat) (e : GoError) (rest : List (Nat × Error))
    (hi : i < n) :
    errChanSends n [] ((i, some e) :: rest)
      = fmtErrorf "error starting app" e :: errChanSends n [i] rest := by
  rw [errChanSends.eq_def]
  simp [hi]

theorem errChanSends_all_nil (n : Nat) (seen : List Nat) (rs : List (Nat × Error))
    (h : ∀ r ∈ rs, r.2 = none) : errChanSends n seen rs = [] := by
  induction rs generalizing seen with
  | nil => rfl
  | cons r rest ih =>
    obtain ⟨i, res⟩ := r
    have hres : res = none := h (i, res) (List.mem_cons_self _ _)
    subst hres
    unfold errChanSends
    have hrest := fun s => ih s (fun r hr => h r (List.mem_cons_of_mem _ hr))
    split <;> exact hrest _

theorem errChanSends_eq_filterMap (n : Nat) (seen : List Nat) (rs : List (Nat × Error))
    (hlt : ∀ r ∈ rs, r.1 < n) (hseen : ∀ r ∈ rs, r.1 ∉ seen)
    (hnd : (rs.map Prod.fst).Nodup) :
    errChanSends n seen rs = rs.filterMap sentFor := by
  induction rs generalizing seen with
  | nil => rfl
  | cons r rest ih =>
    obtain ⟨i, res⟩ := r
    have hi : i < n := hlt (i, res) (List.mem_cons_self _ _)
    have his : i ∉ seen := hseen (i, res) (List.mem_cons_self _ _)
    rw [List.map_cons, List.nodup_cons] at hnd
    have hrest : errChanSends n (i :: seen) rest = rest.filterMap sentFor := by
      apply ih
      · exact fun r hr => hlt r (List.mem_cons_of_mem _ hr)
      · intro r hr hmem
        rcases List.mem_cons.1 hmem with h | h
        · have hm := List.mem_map_of_mem Prod.fst hr
          rw [h] at hm
          exact hnd.1 hm
        · exact hseen r (List.mem_cons_of_mem _ hr) h
      · exact hnd.2
    have hcond : (decide (i < n) && !seen.contains i) = true := by simp [hi, his]
    rw [errChanSends.eq_def]
    simp only [hcond, if_true]
    cases res with
    | none => simp only [hrest, List.filterMap_cons, sentFor, Option.map_none']
    | some err => simp only [hrest, List.filterMap_cons, sentFor, Option.map_some']

/-- C6 (amended): a subsystem whose `Run` returns nil sends nothing on the error
channel, and every non-nil error that the `Run` of a subsystem returns, a
context-cancellation error like any other, is wrapped and sent: the channel
holds, in order of return, the wrapped non-nil results and nothing else. The
first value sent selects the failure branch when the context is not done (or
the `select` picks the channel) and is then recoverable from the result of
`Run`. A `Run` that ends by the cancellation branch with a successful shutdown
returns nil. -/
theorem C6_nonnil_run_error_is_sent (ar : appRunner) (ctx : Context) (w : RunWorld) :
    (∀ x ∈ (ar.Run ctx w).errChan,
      ∃ i e, (i, some e) ∈ w.returned ∧ i < ar.apps.length ∧
        x = fmtErrorf "error starting app" e) ∧
    ((w.returned.map Prod.fst).Nodup → (∀ r ∈ w.returned, r.1 < ar.apps.length) →
      (ar.Run ctx w).errChan = w.returned.filterMap sentFor ∧
      (∀ i e, (i, some e) ∈ w.returned →
        fmtErrorf "error starting app" e ∈ (ar.Run ctx w).errChan) ∧
      ((ar.Run ctx w).errChan = [] ↔ ∀ r ∈ w.returned, r.2 = none)) ∧
    ((∀ r ∈ w.returned, r.2 = none) →
      (ar.Run ctx w).errChan = [] ∧ ∀ err, (ar.Run ctx w).branch ≠ some (.errChan err)) ∧
    (∀ err, (ar.Run ctx w).errChan.head? = some err →
      (ctx.errAt w.ctxErr = none ∨ w.preferErrChan = true) →
      (ar.Run ctx w).branch = some (.errChan err)) ∧
    (∀ err s, (ar.Run ctx w).branch = some (.errChan err) →
      (ar.Run ctx w).stopResult = some s →
      ∃ r, (ar.Run ctx w).result = .returned (some r) ∧
        errorsIs (some r) (some err) = true) ∧
    ((ar.Run ctx w).branch = some .ctxDone → (ar.Run ctx w).stopResult = some none →
      (ar.Run ctx w).result = .returned none) := by
  obtain ⟨hbr, hch⟩ := Run_branch ar ctx w
  refine ⟨?_, ?_, ?_, ?_, ?_, ?_⟩
  · intro x hx
    rw [hch] at hx
    exact errChanSends_mem _ _ _ _ hx
  · intro hnd hlt
    have heq : (ar.Run ctx w).errChan = w.returned.filterMap sentFor := by
      rw [hch]
      exact errChanSends_eq_filterMap _ [] _ hlt (fun _ _ h => by cases h) hnd
    refine ⟨heq, ?_, ?_⟩
    · intro i e hmem
      rw [heq, List.mem_filterMap]
      exact ⟨(i, some e), hmem, rfl⟩
    · rw [heq]
      constructor
      · intro hnil r hr
        cases hres : r.2 with
        | none => rfl
        | some e =>
          have : fmtErrorf "error starting app" e ∈ w.returned.filterMap sentFor := by
            rw [List.mem_filterMap]
            exact ⟨r, hr, by simp [sentFor, hres]⟩
          rw [hnil] at this
          cases this
      · intro hall
        rw [List.filterMap_eq_nil_iff]
        intro r hr
        simp [sentFor, hall r hr]
  · intro hnil
    have hempty := errChanSends_all_nil ar.apps.length [] w.returned hnil
    refine ⟨hch.trans hempty, ?_⟩
    intro err hb
    have := selectRun_errChan _ _ _ _ (hbr.symm.trans hb)
    rw [hempty] at this
    simp at this
  · intro err hhead hsel
    rw [hch] at hhead
    rw [hbr]
    cases hc : errChanSends ar.apps.length [] w.returned with
    | nil => rw [hc] at hhead; cases hhead
    | cons x rest =>
      rw [hc] at hhead
      simp only [List.head?_cons, Option.some.injEq] at hhead
      subst hhead
      rcases hsel with h | h
      · rw [h]; rfl
      · rw [h]
        cases (ctx.errAt w.ctxErr).isSome <;> rfl
  · intro err s hb hs
    obtain ⟨h1, h2⟩ := Run_errChan ar ctx w err s hb hs
    cases s with
    | none => exact ⟨err, h1 rfl, by simp [errorsIs, GoError.is_self]⟩
    | some stopErr =>
      exact ⟨.join [err, fmtErrorf "failed to stop apps" stopErr], h2 stopErr rfl,
        errorsIs_join_pair _ _ _ (Or.inl (by simp [errorsIs, GoError.is_self]))⟩
  · intro hb hs
    exact (Run_ctxDone ar ctx w none hb hs).1 rfl

/-- C6 (amended), applied: the `context.Canceled` that the first subsystem returns
after the second one returned nil is the only value on the error channel and
selects the failure branch. -/
theorem C6_nonnil_run_error_is_sent_witness :
    (worldSecondReturnCanceled.returned.map Prod.fst).Nodup ∧
    (∀ r ∈ worldSecondReturnCanceled.returned, r.1 < sampleRunner2.apps.length) ∧
    (sampleRunner2.Run (.root 0 true) worldSecondReturnCanceled).errChan
      = [fmtErrorf "error starting app" contextCanceled] ∧
    (sampleRunner2.Run (.root 0 true) worldSecondReturnCanceled).branch
      = some (.errChan (fmtErrorf "error starting app" contextCanceled)) :=
  ⟨by decide, by decide,
   ((C6_nonnil_run_error_is_sent sampleRunner2 (.root 0 true) worldSecondReturnCanceled).2.1
      (by decide) (by decide)).1,
   (C6_nonnil_run_error_is_sent sampleRunner2 (.root 0 true) worldSecondReturnCanceled).2.2.2.1
      _ rfl (Or.inl rfl)⟩

/-! ## Theorems: StopApps -/

/-- C4 (the code at a failing input): two subsystems whose `Stop` both fail. When
both goroutines read `err` before either assigns it, `StopApps` returns through
the completion branch a joined error that holds only the second stop error:
the first one is not recoverable. When each goroutine assigns right after
reading, both are recoverable. -/
theorem C4_lost_update_evaluation :
    (sampleRunner2.StopApps (.root 0 false) none scheduleRacy2).branch = some .completed ∧
    (sampleRunner2.StopApps (.root 0 false) none scheduleRacy2).result
      = some (some (.join [fmtErrorf "app stop error" stopErr1])) ∧
    errorsIs (some (.join [fmtErrorf "app stop error" stopErr1])) (some stopErr0) = false ∧
    errorsIs (some (.join [fmtErrorf "app stop error" stopErr1])) (some stopErr1) = true ∧
    (sampleRunner2.StopApps (.root 0 false) none scheduleSerial2).result
      = some (some (.join [.join [fmtErrorf "app stop error" stopErr0],
                           fmtErrorf "app stop error" stopErr1])) ∧
    errorsIs (some (.join [.join [fmtErrorf "app stop error" stopErr0],
                           fmtErrorf "app stop error" stopErr1])) (some stopErr0) = true ∧
    errorsIs (some (.join [.join [fmtErrorf "app stop error" stopErr0],
                           fmtErrorf "app stop error" stopErr1])) (some stopErr1) = true :=
  ⟨rfl, rfl, rfl, rfl, rfl, rfl, rfl⟩

/-- C5 (the code at a failing input): `StopApps` is called with an input context
that is cancelled already, the exit-wait is 5 seconds and both `Stop` calls
block. The timer has not fired, yet `StopApps` returns through the branch
`case <-stopCtx.Done()` the error with the text of the exit-wait timeout that
wraps `context.Canceled`: `errors.Is(result, context.DeadlineExceeded)` is false.
The same happens when the input context is cancelled during the call. With a
context that cannot be cancelled and the timer firing, the error wraps
`context.DeadlineExceeded`. -/
theorem C5_cancelled_input_context_evaluation :
    sampleRunner2.exitWait = 5 * Second ∧
    (sampleRunner2.StopApps (.root 0 true) (some contextCanceled) scheduleBlocked2).branch
      = some .timedOut ∧
    (sampleRunner2.StopApps (.root 0 true) (some contextCanceled) scheduleBlocked2).result
      = some (some (fmtErrorf "stopping apps exceeded ExitWait duration" contextCanceled)) ∧
    errorsIs (some (fmtErrorf "stopping apps exceeded ExitWait duration" contextCanceled))
      (some contextDeadlineExceeded) = false ∧
    errorsIs (some (fmtErrorf "stopping apps exceeded ExitWait duration" contextCanceled))
      (some contextCanceled) = true ∧
    (sampleRunner2.StopApps (.root 0 true) none scheduleCancelDuring2).branch
      = some .timedOut ∧
    (sampleRunner2.StopApps (.root 0 true) none scheduleCancelDuring2).result
      = some (some (fmtErrorf "stopping apps exceeded ExitWait duration" contextCanceled)) ∧
    (sampleRunner2.StopApps (.withoutCancel (.root 0 true)) none scheduleTimeoutNoErr).result
      = some (some (fmtErrorf "stopping apps exceeded ExitWait duration"
          contextDeadlineExceeded)) :=
  ⟨rfl, rfl, rfl, rfl, rfl, rfl, rfl, rfl⟩

theorem foldl_history {σ ε : Type} (f : σ → ε → σ) (P : List ε → σ → Prop) (s0 : σ)
    (h0 : P [] s0) (hstep : ∀ pre s e, P pre s → P (pre ++ [e]) (f s e)) (es : List ε) :
    P es (es.foldl f s0) := by
  induction es using List.reverseRecOn with
  | nil => exact h0
  | append_singleton pre e ih =>
    rw [List.foldl_append]
    exact hstep pre _ e ih

theorem step_kinds (stopCtx : Context) (apps : List App) (pc : Bool) (s : StopState)
    (e : StopEvent) :
    ((StopState.step stopCtx apps pc s e).phases = s.phases ∧
      (StopState.step stopCtx apps pc s e).calls = s.calls ∧
      (s.doneClosed = true → (StopState.step stopCtx apps pc s e).doneClosed = true) ∧
      ((StopState.step stopCtx apps pc s e).doneClosed = true →
        s.doneClosed = true ∨ ∀ p ∈ s.phases, p = Phase.finished) ∧
      ((StopState.step stopCtx apps pc s e).branch = some .completed →
        s.branch = some .completed ∨ s.doneClosed = true)) ∨
    (∃ i a, s.phases[i]? = some Phase.spawned ∧ apps[i]? = some a ∧
      (StopState.step stopCtx apps pc s e).phases = s.phases.set i Phase.inStop ∧
      (StopState.step stopCtx apps pc s e).calls = s.calls ++ [(i, a, stopCtx)] ∧
      (StopState.step stopCtx apps pc s e).doneClosed = s.doneClosed ∧
      (StopState.step stopCtx apps pc s e).branch = s.branch) ∨
    (∃ i p q, s.phases[i]? = some p ∧ p ≠ Phase.spawned ∧ p ≠ Phase.finished ∧
      q ≠ Phase.spawned ∧
      (StopState.step stopCtx apps pc s e).phases = s.phases.set i q ∧
      (StopState.step stopCtx apps pc s e).calls = s.calls ∧
      (StopState.step stopCtx apps pc s e).doneClosed = s.doneClosed ∧
      (StopState.step stopCtx apps pc s e).branch = s.branch) := by
  have hsame : ∀ t : StopState, t = s →
      (t.phases = s.phases ∧ t.calls = s.calls ∧
        (s.doneClosed = true → t.doneClosed = true) ∧
        (t.doneClosed = true → s.doneClosed = true ∨ ∀ p ∈ s.phases, p = Phase.finished) ∧
        (t.branch = some .completed → s.branch = some .completed ∨ s.doneClosed = true)) := by
    intro t ht
    subst ht
    exact ⟨rfl, rfl, fun h => h, fun h => Or.inl h, fun h => Or.inl h⟩
  cases e with
  | invoke i =>
    simp only [StopState.step]
    split
    · next a hp ha => exact Or.inr (Or.inl ⟨i, a, hp, ha, rfl, rfl, rfl, rfl⟩)
    · exact Or.inl (hsame _ rfl)
  | stopReturns i r =>
    simp only [StopState.step]
    split
    · next hp =>
      cases r with
      | none =>
        exact Or.inr (Or.inr ⟨i, _, Phase.finished, hp, by simp, by simp, by simp,
          rfl, rfl, rfl, rfl⟩)
      | some stopErr =>
        exact Or.inr (Or.inr ⟨i, _, Phase.returned stopErr, hp, by simp, by simp, by simp,
          rfl, rfl, rfl, rfl⟩)
    · exact Or.inl (hsame _ rfl)
  | load i =>
    simp only [StopState.step]
    split
    · next stopErr hp =>
      exact Or.inr (Or.inr ⟨i, _, Phase.loaded s.err stopErr, hp, by simp, by simp, by simp,
        rfl, rfl, rfl, rfl⟩)
    · exact Or.inl (hsame _ rfl)
  | store i =>
    simp only [StopState.step]
    split
    · next old stopErr hp =>
      exact Or.inr (Or.inr ⟨i, _, Phase.finished, hp, by simp, by simp, by simp,
        rfl, rfl, rfl, rfl⟩)
    · exact Or.inl (hsame _ rfl)
  | closeDone =>
    simp only [StopState.step]
    split
    · next hall =>
      refine Or.inl ⟨rfl, rfl, fun _ => rfl, fun _ => Or.inr ?_, fun h => Or.inl h⟩
      intro p hp
      have := List.all_eq_true.1 hall p hp
      simpa using this
    · exact Or.inl (hsame _ rfl)
  | parentDone e =>
    simp only [StopState.step]
    split
    · exact Or.inl ⟨rfl, rfl, fun h => h, fun h => Or.inl h, fun h => Or.inl h⟩
    · exact Or.inl (hsame _ rfl)
  | deadline =>
    simp only [StopState.step]
    split
    · exact Or.inl ⟨rfl, rfl, fun h => h, fun h => Or.inl h, fun h => Or.inl h⟩
    · exact Or.inl (hsame _ rfl)
  | selectDone =>
    simp only [StopState.step]
    split
    · next hen =>
      simp only [Bool.and_eq_true] at hen
      exact Or.inl ⟨rfl, rfl, fun h => h, fun h => Or.inl h, fun _ => Or.inr hen.2⟩
    · exact Or.inl (hsame _ rfl)
  | selectCtxDone =>
    simp only [StopState.step]
    split
    · refine Or.inl ⟨rfl, rfl, fun h => h, fun h => Or.inl h, fun h => ?_⟩
      simp at h
    · exact Or.inl (hsame _ rfl)

theorem started_set (ps : List Phase) (i j : Nat) (p q : Phase) (hp : ps[i]? = some p) :
    started (ps.set i q) j ↔ if i = j then q ≠ Phase.spawned else started ps j := by
  have hi : i < ps.length := (List.getElem?_eq_some.1 hp).1
  unfold started
  rw [List.getElem?_set]
  by_cases hij : i = j
  · subst hij
    simp [hi]
  · simp [hij]

theorem mem_of_getElem?_some (ps : List Phase) (i : Nat) (p : Phase) (hp : ps[i]? = some p) :
    p ∈ ps :=
  List.mem_iff_getElem?.2 ⟨i, hp⟩

theorem CallsInv_step (stopCtx : Context) (apps : List App) (pc : Bool) (s : StopState)
    (e : StopEvent) (h : CallsInv stopCtx apps s) :
    CallsInv stopCtx apps (StopState.step stopCtx apps pc s e) := by
  obtain ⟨h1, h2, h3, h4, h5, h6⟩ := h
  rcases step_kinds stopCtx apps pc s e with
    ⟨ep, ec, ed1, ed2, eb⟩ | ⟨i, a, hp, ha, ep, ec, ed, eb⟩ | ⟨i, p, q, hp, hps, hpf, hq, ep, ec, ed, eb⟩
  · refine ⟨by rw [ep]; exact h1, by rw [ec]; exact h2, by rw [ec, ep]; exact h3,
      by rw [ec]; exact h4, ?_, ?_⟩
    · intro hd
      rw [ep]
      rcases ed2 hd with hd2 | hall
      · exact h5 hd2
      · exact hall
    · intro hb
      rcases eb hb with hb2 | hd
      · exact ed1 (h6 hb2)
      · exact ed1 hd
  · have hnot : i ∉ s.calls.map Prod.fst := by
      intro hmem
      obtain ⟨p, hp2, hne⟩ := (h3 i).1 hmem
      rw [hp] at hp2
      cases hp2
      exact hne rfl
    refine ⟨by rw [ep, List.length_set]; exact h1, ?_, ?_, ?_, ?_, ?_⟩
    · rw [ec, List.map_append]
      apply List.Nodup.append h2 (by simp)
      intro x hx1 hx2
      simp only [List.map_cons, List.map_nil, List.mem_singleton] at hx2
      rw [hx2] at hx1
      exact hnot hx1
    · intro j
      rw [ec, ep, started_set _ _ _ _ _ hp, List.map_append, List.mem_append, h3 j]
      by_cases hij : i = j
      · simp [hij]
      · simp only [hij, if_false, List.map_cons, List.map_nil, List.mem_singleton]
        constructor
        · rintro (h | h)
          · exact h
          · exact absurd h.symm hij
        · exact Or.inl
    · intro c hc
      rw [ec, List.mem_append] at hc
      rcases hc with hc | hc
      · exact h4 c hc
      · simp only [List.mem_singleton] at hc
        rw [hc]
        exact ⟨ha, rfl⟩
    · intro hd
      rw [ed] at hd
      have := h5 hd _ (mem_of_getElem?_some _ _ _ hp)
      cases this
    · intro hb
      rw [eb] at hb
      rw [ed]
      exact h6 hb
  · refine ⟨by rw [ep, List.length_set]; exact h1, by rw [ec]; exact h2, ?_,
      by rw [ec]; exact h4, ?_, ?_⟩
    · intro j
      rw [ec, ep, started_set _ _ _ _ _ hp, h3 j]
      by_cases hij : i = j
      · simp only [hij, if_true]
        constructor
        · intro _; exact hq
        · intro _; exact ⟨p, hij ▸ hp, hps⟩
      · simp [hij]
    · intro hd
      rw [ed] at hd
      exact absurd (h5 hd _ (mem_of_getElem?_some _ _ _ hp)) hpf
    · intro hb
      rw [eb] at hb
      rw [ed]
      exact h6 hb

theorem CallsInv_init (ar : appRunner) (stopCtx : Context) (parentErr : Error) :
    CallsInv stopCtx ar.apps (ar.stopInit parentErr) := by
  refine ⟨by simp [appRunner.stopInit], by simp [appRunner.stopInit], ?_, ?_, ?_, ?_⟩
  · intro i
    simp only [appRunner.stopInit, List.map_nil, List.not_mem_nil, false_iff]
    rintro ⟨p, hp, hne⟩
    rw [List.getElem?_map] at hp
    cases hg : ar.apps[i]? with
    | none => rw [hg] at hp; simp at hp
    | some a =>
      rw [hg] at hp
      simp only [Option.map_some', Option.some.injEq] at hp
      exact hne hp.symm
  · intro c hc
    simp [appRunner.stopInit] at hc
  · intro hd
    simp [appRunner.stopInit] at hd
  · intro hb
    simp [appRunner.stopInit] at hb

theorem CallsInv_foldl (stopCtx : Context) (apps : List App) (pc : Bool) (s : StopState)
    (es : List StopEvent) (h : CallsInv stopCtx apps s) :
    CallsInv stopCtx apps (es.foldl (StopState.step stopCtx apps pc) s) :=
  foldl_history (StopState.step stopCtx apps pc) (fun _ t => CallsInv stopCtx apps t) s h
    (fun _ t e ht => CallsInv_step stopCtx apps pc t e ht) es

theorem CallsInv_StopApps (ar : appRunner) (ctx : Context) (ctxErr : Error)
    (schedule : List StopEvent) :
    CallsInv (ar.stopCtx ctx) ar.apps (ar.StopApps ctx ctxErr schedule) :=
  CallsInv_foldl _ _ _ _ schedule (CallsInv_init ar _ _)

theorem started_step (stopCtx : Context) (apps : List App) (pc : Bool) (s : StopState)
    (e : StopEvent) (j : Nat) (h : started s.phases j) :
    started (StopState.step stopCtx apps pc s e).phases j := by
  rcases step_kinds stopCtx apps pc s e with
    ⟨ep, -⟩ | ⟨i, a, hp, -, ep, -⟩ | ⟨i, p, q, hp, -, -, hq, ep, -⟩
  · rw [ep]; exact h
  · rw [ep, started_set _ _ _ _ _ hp]
    by_cases hij : i = j
    · simp [hij]
    · simp only [hij, if_false]; exact h
  · rw [ep, started_set _ _ _ _ _ hp]
    by_cases hij : i = j
    · simp only [hij, if_true]; exact hq
    · simp only [hij, if_false]; exact h

theorem started_foldl (stopCtx : Context) (apps : List App) (pc : Bool) (s : StopState)
    (es : List StopEvent) (j : Nat) (h : started s.phases j) :
    started (es.foldl (StopState.step stopCtx apps pc) s).phases j :=
  foldl_history (StopState.step stopCtx apps pc) (fun _ t => started t.phases j) s h
    (fun _ t e ht => started_step stopCtx apps pc t e j ht) es

theorem invoke_started (stopCtx : Context) (apps : List App) (pc : Bool) (s : StopState)
    (i : Nat) (hlen : s.phases.length = apps.length) (hi : i < apps.length) :
    started (StopState.step stopCtx apps pc s (.invoke i)).phases i := by
  have hpi : i < s.phases.length := by omega
  have hp : s.phases[i]? = some s.phases[i] := List.getElem?_eq_getElem hpi
  have ha : apps[i]? = some apps[i] := List.getElem?_eq_getElem hi
  simp only [StopState.step]
  split
  · next a hp2 ha2 =>
    rw [started_set _ _ _ _ _ hp2]
    simp
  · next hne =>
    refine ⟨s.phases[i], hp, ?_⟩
    intro hsp
    exact hne apps[i] (by rw [hp, hsp]) ha

theorem invokeAll_started (stopCtx : Context) (apps : List App) (pc : Bool) (is : List Nat)
    (s : StopState) (hlen : s.phases.length = apps.length) (his : ∀ i ∈ is, i < apps.length) :
    ∀ i ∈ is, started ((is.map StopEvent.invoke).foldl (StopState.step stopCtx apps pc) s).phases i := by
  induction is generalizing s with
  | nil => intro i hi; cases hi
  | cons j rest ih =>
    intro i hi
    simp only [List.map_cons, List.foldl_cons]
    have hj : j < apps.length := his j (List.mem_cons_self _ _)
    have hlen2 : (StopState.step stopCtx apps pc s (.invoke j)).phases.length = apps.length := by
      rcases step_kinds stopCtx apps pc s (.invoke j) with
        ⟨ep, -⟩ | ⟨i, a, hp, -, ep, -⟩ | ⟨i, p, q, hp, -, -, hq, ep, -⟩
      · rw [ep]; exact hlen
      · rw [ep, List.length_set]; exact hlen
      · rw [ep, List.length_set]; exact hlen
    rcases List.mem_cons.1 hi with h | h
    · rw [h]
      exact started_foldl _ _ _ _ _ _ (invoke_started stopCtx apps pc s j hlen hj)
    · exact ih _ hlen2 (fun k hk => his k (List.mem_cons_of_mem _ hk)) i h

theorem calls_perm_of_all_started (stopCtx : Context) (apps : List App) (s : StopState)
    (h : CallsInv stopCtx apps s) (hall : ∀ i, i < apps.length → started s.phases i) :
    (s.calls.map Prod.fst).Perm (List.range apps.length) := by
  obtain ⟨h1, h2, h3, -⟩ := h
  rw [List.perm_ext_iff_of_nodup h2 (List.nodup_range _)]
  intro i
  rw [h3 i, List.mem_range]
  constructor
  · rintro ⟨p, hp, -⟩
    have := (List.getElem?_eq_some.1 hp).1
    omega
  · exact hall i

theorem all_started_of_doneClosed (stopCtx : Context) (apps : List App) (s : StopState)
    (h : CallsInv stopCtx apps s) (hd : s.doneClosed = true) :
    ∀ i, i < apps.length → started s.phases i := by
  obtain ⟨h1, -, -, -, h5, -⟩ := h
  intro i hi
  have hpi : i < s.phases.length := by omega
  have hp : s.phases[i]? = some s.phases[i] := List.getElem?_eq_getElem hpi
  refine ⟨s.phases[i], hp, ?_⟩
  rw [h5 hd _ (mem_of_getElem?_some _ _ _ hp)]
  simp

theorem invoke_keeps_result (stopCtx : Context) (apps : List App) (pc : Bool) (is : List Nat)
    (s : StopState) :
    ((is.map StopEvent.invoke).foldl (StopState.step stopCtx apps pc) s).result = s.result ∧
    ((is.map StopEvent.invoke).foldl (StopState.step stopCtx apps pc) s).branch = s.branch := by
  induction is generalizing s with
  | nil => exact ⟨rfl, rfl⟩
  | cons j rest ih =>
    simp only [List.map_cons, List.foldl_cons]
    have hstep : (StopState.step stopCtx apps pc s (.invoke j)).result = s.result ∧
        (StopState.step stopCtx apps pc s (.invoke j)).branch = s.branch := by
      simp only [StopState.step]
      split <;> exact ⟨rfl, rfl⟩
    exact ⟨(ih _).1.trans hstep.1, (ih _).2.trans hstep.2⟩

theorem StopApps_append (ar : appRunner) (ctx : Context) (ctxErr : Error)
    (pre post : List StopEvent) :
    ar.StopApps ctx ctxErr (pre ++ post)
      = post.foldl (StopState.step (ar.stopCtx ctx) ar.apps ctx.canBeDone)
          (ar.StopApps ctx ctxErr pre) := by
  simp [appRunner.StopApps, List.foldl_append]

theorem StopApps_fair_perm (ar : appRunner) (ctx : Context) (ctxErr : Error)
    (schedule : List StopEvent) :
    ((ar.StopApps ctx ctxErr (schedule ++ invokeAll ar.apps.length)).calls.map Prod.fst).Perm
      (List.range ar.apps.length) := by
  apply calls_perm_of_all_started (ar.stopCtx ctx) ar.apps _ (CallsInv_StopApps _ _ _ _)
  intro i hi
  rw [StopApps_append]
  exact invokeAll_started _ _ _ (List.range ar.apps.length) _
    (CallsInv_StopApps ar ctx ctxErr schedule).1
    (fun k hk => List.mem_range.1 hk) i (List.mem_range.2 hi)

theorem Run_returned_stopApps (ar : appRunner) (ctx : Context) (w : RunWorld) (r : Error)
    (h : (ar.Run ctx w).result = .returned r) :
    (ar.Run ctx w).stopApps
      = [(.withoutCancel ctx, ar.StopApps (.withoutCancel ctx) none w.stopSchedule)] ∧
    ∃ v, (ar.StopApps (.withoutCancel ctx) none w.stopSchedule).result = some v := by
  cases hsel : selectRun (ctx.errAt w.ctxErr).isSome
      (errChanSends ar.apps.length [] w.returned) w.preferErrChan with
  | none =>
    rw [Run_of_blocked ar ctx w hsel] at h
    cases h
  | some b =>
    cases b with
    | ctxDone =>
      rw [Run_of_ctxDone ar ctx w hsel] at h ⊢
      cases hl : ar.log with
      | none => rw [hl] at h; cases h
      | some l =>
        rw [hl] at h
        refine ⟨rfl, ?_⟩
        cases hr : (ar.StopApps (.withoutCancel ctx) none w.stopSchedule).result with
        | none => simp only [hr] at h; cases h
        | some v => exact ⟨v, rfl⟩
    | errChan err =>
      rw [Run_of_errChan ar ctx w err hsel] at h ⊢
      cases hl : ar.log with
      | none => rw [hl] at h; cases h
      | some l =>
        rw [hl] at h
        refine ⟨rfl, ?_⟩
        cases hr : (ar.StopApps (.withoutCancel ctx) none w.stopSchedule).result with
        | none => simp only [hr] at h; cases h
        | some v => exact ⟨v, rfl⟩

theorem calls_apps_eq (apps : List App) (calls : List (Nat × App × Context))
    (h : ∀ c ∈ calls, apps[c.1]? = some c.2.1) :
    calls.map callApp = (calls.map Prod.fst).filterMap (fun i => apps[i]?) := by
  induction calls with
  | nil => rfl
  | cons c rest ih =>
    rw [List.map_cons, List.map_cons, List.filterMap_cons, h c (List.mem_cons_self _ _),
      ih (fun d hd => h d (List.mem_cons_of_mem _ hd))]
    rfl

theorem range_filterMap_getElem? (l : List App) :
    (List.range l.length).filterMap (fun i => l[i]?) = l := by
  induction l using List.reverseRecOn with
  | nil => rfl
  | append_singleton xs x ih =>
    rw [List.length_append, List.length_singleton, List.range_succ, List.filterMap_append]
    have h1 : (List.range xs.length).filterMap (fun i => (xs ++ [x])[i]?) = xs := by
      refine Eq.trans (List.filterMap_congr ?_) ih
      intro i hi
      exact List.getElem?_append_left (List.mem_range.1 hi)
    rw [h1]
    simp

theorem calls_apps_perm (stopCtx : Context) (apps : List App) (s : StopState)
    (h : CallsInv stopCtx apps s)
    (hp : (s.calls.map Prod.fst).Perm (List.range apps.length)) :
    (s.calls.map callApp).Perm apps := by
  rw [calls_apps_eq apps s.calls (fun c hc => (h.2.2.2.1 c hc).1)]
  have := List.Perm.filterMap (fun i => apps[i]?) hp
  rwa [range_filterMap_getElem?] at this

theorem calls_apps_count_le (stopCtx : Context) (apps : List App) (s : StopState)
    (h : CallsInv stopCtx apps s) (a : App) :
    (s.calls.map callApp).count a ≤ apps.count a := by
  obtain ⟨h1, h2, h3, h4, -⟩ := h
  have hsub : s.calls.map Prod.fst ⊆ List.range apps.length := by
    intro i hi
    obtain ⟨p, hp, -⟩ := (h3 i).1 hi
    have := (List.getElem?_eq_some.1 hp).1
    exact List.mem_range.2 (by omega)
  obtain ⟨l, hperm, hsubl⟩ := List.subperm_of_subset h2 hsub
  have hsp : ((s.calls.map Prod.fst).filterMap (fun i => apps[i]?)).Subperm
      ((List.range apps.length).filterMap (fun i => apps[i]?)) :=
    ⟨l.filterMap (fun i => apps[i]?), hperm.filterMap _, hsubl.filterMap _⟩
  rw [range_filterMap_getElem?, ← calls_apps_eq apps s.calls (fun c hc => (h4 c hc).1)] at hsp
  exact hsp.count_le a

/-- C3 (as stated, refuted): the context is cancelled and the shutdown of the two
subsystems `appLog`, `appAll` times out when only the goroutine of the first has
invoked `Stop`: `Run` returns, and `Stop` has not been invoked on `appAll`. With
an exit-wait of 0 the stop context is done at once and `Run` returns when no
`Stop` has been invoked at all. -/
theorem C3_counterexample_return_before_invocation :
    (sampleRunner2.Run (.root 0 true) worldCancelTimeout).result
      = .returned (some (fmtErrorf "failed to stop apps"
          (fmtErrorf "stopping apps exceeded ExitWait duration" contextDeadlineExceeded))) ∧
    (sampleRunner2.Run (.root 0 true) worldCancelTimeout).stopApps.map
        (fun c => c.2.calls.map callApp) = [[appLog]] ∧
    appAll ∈ sampleRunner2.apps ∧
    ((sampleRunner2.StopApps (.withoutCancel (.root 0 true)) none
        worldCancelTimeout.stopSchedule).calls.map callApp).count appAll = 0 ∧
    (sampleRunnerZeroWait.Run (.root 0 true) worldCancelImmediate).result
      = .returned (some (fmtErrorf "failed to stop apps"
          (fmtErrorf "stopping apps exceeded ExitWait duration" contextDeadlineExceeded))) ∧
    (sampleRunnerZeroWait.Run (.root 0 true) worldCancelImmediate).stopApps.map
        (fun c => c.2.calls.map callApp) = [[]] := by
  refine ⟨rfl, rfl, by decide, by decide, rfl, rfl⟩

/-- C3 (amended): for every `Run` call that returns, on the cancellation branch as
on the failure branch, `StopApps` is called exactly once and starts one stop
goroutine per subsystem of the list; every `Stop` invocation is made on the
subsystem at the position of its goroutine with the one stop context
`WithTimeout(WithoutCancel(ctx), exitWait)`, and no subsystem is invoked more
often than it has entries in the list. When `StopApps` returns through the
completion branch, `Stop` has been invoked exactly once on every subsystem of
the list, the failed one included, when it returns. When it returns through the
timeout branch some goroutines may not have invoked `Stop` yet; once every
goroutine that `StopApps` started has run, `Stop` has been invoked exactly once
on every subsystem of the list, the result of `StopApps` being unchanged. -/
theorem C3_stop_invocations (ar : appRunner) (ctx : Context) (w : RunWorld) (r : Error)
    (h : (ar.Run ctx w).result = .returned r) :
    (ar.Run ctx w).stopApps
      = [(.withoutCancel ctx, ar.StopApps (.withoutCancel ctx) none w.stopSchedule)] ∧
    (ar.StopApps (.withoutCancel ctx) none w.stopSchedule).phases.length = ar.apps.length ∧
    (∀ c ∈ (ar.StopApps (.withoutCancel ctx) none w.stopSchedule).calls,
      ar.apps[c.1]? = some (callApp c) ∧
      c.2.2 = Context.withTimeout (.withoutCancel ctx) ar.exitWait) ∧
    ((ar.StopApps (.withoutCancel ctx) none w.stopSchedule).calls.map Prod.fst).Nodup ∧
    (∀ a, ((ar.StopApps (.withoutCancel ctx) none w.stopSchedule).calls.map callApp).count a
      ≤ ar.apps.count a) ∧
    ((ar.StopApps (.withoutCancel ctx) none w.stopSchedule).branch = some .completed →
      ((ar.StopApps (.withoutCancel ctx) none w.stopSchedule).calls.map Prod.fst).Perm
        (List.range ar.apps.length) ∧
      ((ar.StopApps (.withoutCancel ctx) none w.stopSchedule).calls.map callApp).Perm ar.apps ∧
      ∀ a, ((ar.StopApps (.withoutCancel ctx) none w.stopSchedule).calls.map callApp).count a
        = ar.apps.count a) ∧
    (∀ pre post, w.stopSchedule = pre ++ post →
      (ar.StopApps (.withoutCancel ctx) none pre).branch = some .completed →
      ((ar.StopApps (.withoutCancel ctx) none pre).calls.map callApp).Perm ar.apps) ∧
    (((ar.StopApps (.withoutCancel ctx) none
          (w.stopSchedule ++ invokeAll ar.apps.length)).calls.map Prod.fst).Perm
        (List.range ar.apps.length) ∧
      ((ar.StopApps (.withoutCancel ctx) none
          (w.stopSchedule ++ invokeAll ar.apps.length)).calls.map callApp).Perm ar.apps ∧
      (∀ a, ((ar.StopApps (.withoutCancel ctx) none
          (w.stopSchedule ++ invokeAll ar.apps.length)).calls.map callApp).count a
        = ar.apps.count a) ∧
      (∀ c ∈ (ar.StopApps (.withoutCancel ctx) none
          (w.stopSchedule ++ invokeAll ar.apps.length)).calls,
        ar.apps[c.1]? = some (callApp c) ∧
        c.2.2 = Context.withTimeout (.withoutCancel ctx) ar.exitWait) ∧
      (ar.StopApps (.withoutCancel ctx) none
          (w.stopSchedule ++ invokeAll ar.apps.length)).result
        = (ar.StopApps (.withoutCancel ctx) none w.stopSchedule).result ∧
      (ar.StopApps (.withoutCancel ctx) none
          (w.stopSchedule ++ invokeAll ar.apps.length)).branch
        = (ar.StopApps (.withoutCancel ctx) none w.stopSchedule).branch) := by
  have hinv := CallsInv_StopApps ar (.withoutCancel ctx) none w.stopSchedule
  have hinv2 := CallsInv_StopApps ar (.withoutCancel ctx) none
    (w.stopSchedule ++ invokeAll ar.apps.length)
  have hcompleted : ∀ sched,
      (ar.StopApps (.withoutCancel ctx) none sched).branch = some .completed →
      ((ar.StopApps (.withoutCancel ctx) none sched).calls.map Prod.fst).Perm
        (List.range ar.apps.length) := by
    intro sched hb
    have hi := CallsInv_StopApps ar (.withoutCancel ctx) none sched
    exact calls_perm_of_all_started _ _ _ hi
      (all_started_of_doneClosed _ _ _ hi (hi.2.2.2.2.2 hb))
  have hfair := StopApps_fair_perm ar (.withoutCancel ctx) none w.stopSchedule
  refine ⟨(Run_returned_stopApps ar ctx w r h).1, hinv.1, hinv.2.2.2.1, hinv.2.1,
    fun a => calls_apps_count_le _ _ _ hinv a, ?_, ?_, ?_⟩
  · intro hb
    have hp := calls_apps_perm _ _ _ hinv (hcompleted _ hb)
    exact ⟨hcompleted _ hb, hp, fun a => hp.count_eq a⟩
  · intro pre post _ hb
    exact calls_apps_perm _ _ _ (CallsInv_StopApps ar (.withoutCancel ctx) none pre)
      (hcompleted _ hb)
  · have hp := calls_apps_perm _ _ _ hinv2 hfair
    refine ⟨hfair, hp, fun a => hp.count_eq a, hinv2.2.2.2.1, ?_, ?_⟩
    · rw [StopApps_append]
      exact (invoke_keeps_result _ _ _ _ _).1
    · rw [StopApps_append]
      exact (invoke_keeps_result _ _ _ _ _).2

/-- C3 (amended), applied: the context is cancelled and the shutdown of two
subsystems times out when only the first `Stop` has been invoked; `Run` returns,
`StopApps` was called once, and once the second goroutine has run both
subsystems have been invoked once. -/
theorem C3_stop_invocations_witness :
    (sampleRunner2.Run (.root 0 true) worldCancelTimeout).result
      = .returned (some (fmtErrorf "failed to stop apps"
          (fmtErrorf "stopping apps exceeded ExitWait duration" contextDeadlineExceeded))) ∧
    (sampleRunner2.StopApps (.withoutCancel (.root 0 true)) none
        worldCancelTimeout.stopSchedule).calls.map callApp = [appLog] ∧
    (sampleRunner2.StopApps (.withoutCancel (.root 0 true)) none
        (worldCancelTimeout.stopSchedule ++ invokeAll sampleRunner2.apps.length)).calls.map
        callApp = [appLog, appAll] ∧
    (sampleRunner2.Run (.root 0 true) worldCancelTimeout).stopApps
      = [(.withoutCancel (.root 0 true),
          sampleRunner2.StopApps (.withoutCancel (.root 0 true)) none
            worldCancelTimeout.stopSchedule)] ∧
    ((sampleRunner2.StopApps (.withoutCancel (.root 0 true)) none
        (worldCancelTimeout.stopSchedule ++ invokeAll sampleRunner2.apps.length)).calls.map
        callApp).Perm sampleRunner2.apps :=
  ⟨rfl, rfl, rfl,
   (C3_stop_invocations sampleRunner2 (.root 0 true) worldCancelTimeout _ rfl).1,
   (C3_stop_invocations sampleRunner2 (.root 0 true) worldCancelTimeout _
      rfl).2.2.2.2.2.2.2.2.1⟩

theorem errorsJoin_with_wrapped (old : Error) (w : GoError) :
    ∃ es, errorsJoin [old, some w] = some (.join es) := by
  cases old with
  | none => exact ⟨[w], rfl⟩
  | some o => exact ⟨[o, w], rfl⟩

theorem step_result_kinds (stopCtx : Context) (apps : List App) (pc : Bool) (s : StopState)
    (e : StopEvent) :
    ((StopState.step stopCtx apps pc s e).result = s.result ∧
      (StopState.step stopCtx apps pc s e).branch = s.branch ∧
      (StopState.step stopCtx apps pc s e).stopCtxErr = s.stopCtxErr ∧
      (s.stopCtxErr = none → firstCause pc [e] = none) ∧
      ((StopState.step stopCtx apps pc s e).err = s.err ∨
        ∃ es, (StopState.step stopCtx apps pc s e).err = some (.join es))) ∨
    ((StopState.step stopCtx apps pc s e).result = s.result ∧
      (StopState.step stopCtx apps pc s e).branch = s.branch ∧
      (StopState.step stopCtx apps pc s e).err = s.err ∧
      s.stopCtxErr = none ∧
      (∃ c, firstCause pc [e] = some c ∧
        (StopState.step stopCtx apps pc s e).stopCtxErr = some c)) ∨
    ((StopState.step stopCtx apps pc s e).err = s.err ∧ s.result = none ∧
      (StopState.step stopCtx apps pc s e).result = some s.err ∧
      (StopState.step stopCtx apps pc s e).branch = some .completed) ∨
    ((StopState.step stopCtx apps pc s e).err = s.err ∧ s.result = none ∧
      ∃ cause, s.stopCtxErr = some cause ∧
        (StopState.step stopCtx apps pc s e).stopCtxErr = some cause ∧
        (StopState.step stopCtx apps pc s e).result
          = some (some (fmtErrorf "stopping apps exceeded ExitWait duration" cause)) ∧
        (StopState.step stopCtx apps pc s e).branch = some .timedOut) := by
  cases e with
  | invoke i =>
    simp only [StopState.step]
    split <;> exact Or.inl ⟨rfl, rfl, rfl, fun _ => rfl, Or.inl rfl⟩
  | stopReturns i r =>
    simp only [StopState.step]
    split
    · cases r <;> exact Or.inl ⟨rfl, rfl, rfl, fun _ => rfl, Or.inl rfl⟩
    · exact Or.inl ⟨rfl, rfl, rfl, fun _ => rfl, Or.inl rfl⟩
  | load i =>
    simp only [StopState.step]
    split <;> exact Or.inl ⟨rfl, rfl, rfl, fun _ => rfl, Or.inl rfl⟩
  | store i =>
    simp only [StopState.step]
    split
    · next old stopErr hp =>
      exact Or.inl ⟨rfl, rfl, rfl, fun _ => rfl, Or.inr (errorsJoin_with_wrapped old _)⟩
    · exact Or.inl ⟨rfl, rfl, rfl, fun _ => rfl, Or.inl rfl⟩
  | closeDone =>
    simp only [StopState.step]
    split <;> exact Or.inl ⟨rfl, rfl, rfl, fun _ => rfl, Or.inl rfl⟩
  | parentDone c =>
    simp only [StopState.step]
    split
    · next hen =>
      simp only [Bool.and_eq_true, Option.isNone_iff_eq_none] at hen
      refine Or.inr (Or.inl ⟨rfl, rfl, rfl, hen.2, c, ?_, rfl⟩)
      simp [firstCause, hen.1]
    · next hen =>
      refine Or.inl ⟨rfl, rfl, rfl, ?_, Or.inl rfl⟩
      intro hnone
      cases pc with
      | false => rfl
      | true => simp [hnone] at hen
  | deadline =>
    simp only [StopState.step]
    split
    · next hen =>
      simp only [Option.isNone_iff_eq_none] at hen
      exact Or.inr (Or.inl ⟨rfl, rfl, rfl, hen, contextDeadlineExceeded, rfl, rfl⟩)
    · next hen =>
      refine Or.inl ⟨rfl, rfl, rfl, ?_, Or.inl rfl⟩
      intro hnone
      simp [hnone] at hen
  | selectDone =>
    simp only [StopState.step]
    split
    · next hen =>
      simp only [Bool.and_eq_true, Option.isNone_iff_eq_none] at hen
      exact Or.inr (Or.inr (Or.inl ⟨rfl, hen.1, rfl, rfl⟩))
    · exact Or.inl ⟨rfl, rfl, rfl, fun _ => rfl, Or.inl rfl⟩
  | selectCtxDone =>
    simp only [StopState.step]
    split
    · next cause hr hc =>
      exact Or.inr (Or.inr (Or.inr ⟨rfl, hr, cause, hc, hc, rfl, rfl⟩))
    · exact Or.inl ⟨rfl, rfl, rfl, fun _ => rfl, Or.inl rfl⟩

theorem firstCause_append_some (pc : Bool) (pre post : List StopEvent) (c : GoError)
    (h : firstCause pc pre = some c) : firstCause pc (pre ++ post) = some c := by
  induction pre with
  | nil => simp [firstCause] at h
  | cons e rest ih =>
    rw [List.cons_append]
    cases e with
    | deadline => exact h
    | parentDone x =>
      cases pc with
      | true => exact h
      | false => exact ih h
    | _ => exact ih h

theorem firstCause_append_none (pc : Bool) (pre post : List StopEvent)
    (h : firstCause pc pre = none) : firstCause pc (pre ++ post) = firstCause pc post := by
  induction pre with
  | nil => rfl
  | cons e rest ih =>
    rw [List.cons_append]
    cases e with
    | deadline => cases h
    | parentDone x =>
      cases pc with
      | true => cases h
      | false => exact ih h
    | _ => exact ih h

theorem stopCtxCause_append_some (pc : Bool) (parentErr : Error) (exitWait : Duration)
    (pre post : List StopEvent) (c : GoError)
    (h : stopCtxCause pc parentErr exitWait pre = some c) :
    stopCtxCause pc parentErr exitWait (pre ++ post) = some c := by
  unfold stopCtxCause at h ⊢
  cases hw : withTimeoutErr parentErr exitWait with
  | some e => rw [hw] at h; exact h
  | none =>
    rw [hw] at h
    exact firstCause_append_some pc pre post c h

theorem stopCtxCause_append_none (pc : Bool) (parentErr : Error) (exitWait : Duration)
    (pre post : List StopEvent) (h : stopCtxCause pc parentErr exitWait pre = none) :
    stopCtxCause pc parentErr exitWait (pre ++ post) = firstCause pc post := by
  unfold stopCtxCause at h ⊢
  cases hw : withTimeoutErr parentErr exitWait with
  | some e => rw [hw] at h; cases h
  | none =>
    rw [hw] at h
    exact firstCause_append_none pc pre post h

theorem TimeoutInv_step (stopCtx : Context) (apps : List App) (pc : Bool) (parentErr : Error)
    (exitWait : Duration) (pre : List StopEvent) (s : StopState) (e : StopEvent)
    (h : TimeoutInv pc parentErr exitWait pre s) :
    TimeoutInv pc parentErr exitWait (pre ++ [e]) (StopState.step stopCtx apps pc s e) := by
  obtain ⟨k1, k2, k4⟩ := h
  have hk2 : s.branch = some .timedOut →
      ∃ c, stopCtxCause pc parentErr exitWait (pre ++ [e]) = some c ∧ s.stopCtxErr = some c ∧
        s.result = some (some (fmtErrorf "stopping apps exceeded ExitWait duration" c)) := by
    intro hb
    obtain ⟨c, h1, h2, h3⟩ := k2 hb
    exact ⟨c, stopCtxCause_append_some _ _ _ _ _ _ h1, h2, h3⟩
  rcases step_result_kinds stopCtx apps pc s e with
    ⟨er, eb, ec, hfc, ee⟩ | ⟨er, eb, ee, hn, c, hfc, hc⟩ | ⟨ee, hr, er, eb⟩ |
    ⟨ee, hr, cause, hc, ec, er, eb⟩
  · refine ⟨?_, ?_, ?_⟩
    · intro hres
      rw [er] at hres
      rw [ec, k1 hres]
      cases hcs : stopCtxCause pc parentErr exitWait pre with
      | some c => exact (stopCtxCause_append_some _ _ _ _ _ _ hcs).symm
      | none =>
        rw [stopCtxCause_append_none _ _ _ _ _ hcs]
        exact (hfc ((k1 hres).trans hcs)).symm
    · intro hb
      rw [eb] at hb
      rw [ec, er]
      exact hk2 hb
    · rcases ee with ee | ee
      · rw [ee]; exact k4
      · exact Or.inr ee
  · have hbn : s.branch ≠ some .timedOut := by
      intro hb
      obtain ⟨c2, -, h2, -⟩ := k2 hb
      rw [hn] at h2; cases h2
    refine ⟨?_, ?_, by rw [ee]; exact k4⟩
    · intro hres
      rw [er] at hres
      have hcs : stopCtxCause pc parentErr exitWait pre = none := (k1 hres).symm.trans hn
      rw [hc, stopCtxCause_append_none _ _ _ _ _ hcs, hfc]
    · intro hb
      rw [eb] at hb
      exact absurd hb hbn
  · refine ⟨?_, ?_, by rw [ee]; exact k4⟩
    · intro hres
      rw [er] at hres; cases hres
    · intro hb
      rw [eb] at hb; cases hb
  · refine ⟨?_, ?_, by rw [ee]; exact k4⟩
    · intro hres
      rw [er] at hres; cases hres
    · intro _
      refine ⟨cause, stopCtxCause_append_some _ _ _ _ _ _ ?_, ec, er⟩
      rw [← k1 hr]; exact hc

theorem TimeoutInv_init (ar : appRunner) (pc : Bool) (parentErr : Error) :
    TimeoutInv pc parentErr ar.exitWait [] (ar.stopInit parentErr) := by
  refine ⟨?_, ?_, Or.inl rfl⟩
  · intro _
    simp only [appRunner.stopInit, stopCtxCause, firstCause]
    cases withTimeoutErr parentErr ar.exitWait <;> rfl
  · intro hb
    simp [appRunner.stopInit] at hb

theorem TimeoutInv_StopApps (ar : appRunner) (ctx : Context) (ctxErr : Error)
    (schedule : List StopEvent) :
    TimeoutInv ctx.canBeDone (ctx.errAt ctxErr) ar.exitWait schedule
      (ar.StopApps ctx ctxErr schedule) :=
  foldl_history (StopState.step (ar.stopCtx ctx) ar.apps ctx.canBeDone)
    (fun pre t => TimeoutInv ctx.canBeDone (ctx.errAt ctxErr) ar.exitWait pre t)
    (ar.stopInit (ctx.errAt ctxErr)) (TimeoutInv_init ar _ _)
    (fun pre t e ht => TimeoutInv_step _ _ _ _ _ pre t e ht) schedule

theorem firstCause_not_cancelable (sched : List StopEvent) (c : GoError)
    (h : firstCause false sched = some c) : c = contextDeadlineExceeded := by
  induction sched with
  | nil => simp [firstCause] at h
  | cons e rest ih =>
    cases e with
    | deadline => exact (Option.some.inj h).symm
    | _ => exact ih h

/-- The error that `StopApps` returns through the timeout branch, for every
runner, input context and schedule: it is non-nil, it is the timeout error and
not a joined stop error, whatever the stop errors are, and it wraps
`stopCtx.Err()`, which is the error the stop context got first. That is
`context.DeadlineExceeded` when the input context can never be done, as the
`WithoutCancel` context that `Run` passes, and when the timer fires before the
input context is done; it is the error of the input context when that context
is done already at the call or becomes done before the timer fires. -/
theorem StopApps_timeout_error (ar : appRunner) (ctx : Context) (ctxErr : Error)
    (schedule : List StopEvent)
    (h : (ar.StopApps ctx ctxErr schedule).branch = some .timedOut) :
    ∃ cause,
      stopCtxCause ctx.canBeDone (ctx.errAt ctxErr) ar.exitWait schedule = some cause ∧
      (ar.StopApps ctx ctxErr schedule).stopCtxErr = some cause ∧
      (ar.StopApps ctx ctxErr schedule).result
        = some (some (fmtErrorf "stopping apps exceeded ExitWait duration" cause)) ∧
      errorsIs (some (fmtErrorf "stopping apps exceeded ExitWait duration" cause)) (some cause)
        = true ∧
      (∀ es, fmtErrorf "stopping apps exceeded ExitWait duration" cause ≠ .join es) ∧
      (ar.StopApps ctx ctxErr schedule).result ≠ some (ar.StopApps ctx ctxErr schedule).err ∧
      (ctx.canBeDone = false →
        cause = contextDeadlineExceeded ∧
        errorsIs (some (fmtErrorf "stopping apps exceeded ExitWait duration" cause))
          (some contextDeadlineExceeded) = true) ∧
      (∀ e, ctx.errAt ctxErr = some e → cause = e) ∧
      (ctx.errAt ctxErr = none → ar.exitWait ≤ 0 → cause = contextDeadlineExceeded) ∧
      (ctx.errAt ctxErr = none → 0 < ar.exitWait → ∀ pre post,
        schedule = pre ++ StopEvent.deadline :: post → firstCause ctx.canBeDone pre = none →
        cause = contextDeadlineExceeded) ∧
      (ctx.errAt ctxErr = none → 0 < ar.exitWait → ctx.canBeDone = true → ∀ pre post e,
        schedule = pre ++ StopEvent.parentDone e :: post → firstCause ctx.canBeDone pre = none →
        cause = e) := by
  obtain ⟨-, k2, k4⟩ := TimeoutInv_StopApps ar ctx ctxErr schedule
  obtain ⟨cause, hsrc, hc, hr⟩ := k2 h
  have hlate : ctx.errAt ctxErr = none → 0 < ar.exitWait →
      firstCause ctx.canBeDone schedule = some cause := by
    intro hn hpos
    have hw : withTimeoutErr (ctx.errAt ctxErr) ar.exitWait = none := by
      rw [hn]
      simp only [withTimeoutErr]
      rw [if_neg (not_le.2 hpos)]
    simpa [stopCtxCause, hw] using hsrc
  refine ⟨cause, hsrc, hc, hr, errorsIs_wrap_self _ _, ?_, ?_, ?_, ?_, ?_, ?_, ?_⟩
  · intro es hes
    simp [fmtErrorf] at hes
  · rw [hr]
    intro heq
    simp only [Option.some.injEq] at heq
    rcases k4 with k | ⟨es, k⟩
    · rw [k] at heq; cases heq
    · rw [k] at heq
      simp [fmtErrorf] at heq
  · intro hcan
    have hcause : cause = contextDeadlineExceeded := by
      have hn : ctx.errAt ctxErr = none := by simp [Context.errAt, hcan]
      simp only [stopCtxCause, withTimeoutErr, hn, hcan] at hsrc
      split at hsrc
      · next e he =>
        split at he
        · cases he; exact (Option.some.inj hsrc).symm
        · cases he
      · exact firstCause_not_cancelable schedule cause hsrc
    exact ⟨hcause, by rw [hcause]; exact errorsIs_wrap_self _ _⟩
  · intro e he
    simp only [stopCtxCause, withTimeoutErr, he] at hsrc
    exact (Option.some.inj hsrc).symm
  · intro hn hle
    simp only [stopCtxCause, withTimeoutErr, hn, if_pos hle] at hsrc
    exact (Option.some.inj hsrc).symm
  · intro hn hpos pre post hsched hpre
    have := hlate hn hpos
    rw [hsched, firstCause_append_none _ _ _ hpre] at this
    simp only [firstCause] at this
    exact (Option.some.inj this).symm
  · intro hn hpos hcan pre post e hsched hpre
    have := hlate hn hpos
    rw [hsched, firstCause_append_none _ _ _ hpre] at this
    simp only [firstCause, hcan, if_true] at this
    exact (Option.some.inj this).symm

theorem step_kinds_noupdate (stopCtx : Context) (apps : List App) (pc : Bool) (s : StopState)
    (e : StopEvent) (hl : ∀ i, e ≠ .load i) (hs : ∀ i, e ≠ .store i) :
    ((StopState.step stopCtx apps pc s e).phases = s.phases ∧
      (StopState.step stopCtx apps pc s e).stopErrs = s.stopErrs ∧
      (StopState.step stopCtx apps pc s e).err = s.err ∧
      (s.doneClosed = true → (StopState.step stopCtx apps pc s e).doneClosed = true) ∧
      ((StopState.step stopCtx apps pc s e).doneClosed = true →
        s.doneClosed = true ∨ ∀ p ∈ s.phases, p = Phase.finished) ∧
      ((StopState.step stopCtx apps pc s e).branch = some .completed →
        (s.branch = some .completed ∧ (StopState.step stopCtx apps pc s e).result = s.result) ∨
        (s.doneClosed = true ∧ (StopState.step stopCtx apps pc s e).result = some s.err))) ∨
    (∃ i p q, s.phases[i]? = some p ∧ (p = Phase.spawned ∨ p = Phase.inStop) ∧
      (∀ old x, q ≠ Phase.loaded old x) ∧
      (StopState.step stopCtx apps pc s e).phases = s.phases.set i q ∧
      (((∀ x, q ≠ Phase.returned x) ∧
          (StopState.step stopCtx apps pc s e).stopErrs = s.stopErrs) ∨
        ∃ x, q = Phase.returned x ∧
          (StopState.step stopCtx apps pc s e).stopErrs = s.stopErrs ++ [(i, x)]) ∧
      (StopState.step stopCtx apps pc s e).err = s.err ∧
      (StopState.step stopCtx apps pc s e).doneClosed = s.doneClosed ∧
      (StopState.step stopCtx apps pc s e).branch = s.branch ∧
      (StopState.step stopCtx apps pc s e).result = s.result) := by
  have hsame : ∀ t : StopState, t = s →
      (t.phases = s.phases ∧ t.stopErrs = s.stopErrs ∧ t.err = s.err ∧
        (s.doneClosed = true → t.doneClosed = true) ∧
        (t.doneClosed = true → s.doneClosed = true ∨ ∀ p ∈ s.phases, p = Phase.finished) ∧
        (t.branch = some .completed →
          (s.branch = some .completed ∧ t.result = s.result) ∨
          (s.doneClosed = true ∧ t.result = some s.err))) := by
    intro t ht
    subst ht
    exact ⟨rfl, rfl, rfl, fun h => h, fun h => Or.inl h, fun h => Or.inl ⟨h, rfl⟩⟩
  cases e with
  | invoke i =>
    simp only [StopState.step]
    split
    · next a hp ha =>
      exact Or.inr ⟨i, _, Phase.inStop, hp, Or.inl rfl, by simp, rfl, Or.inl ⟨by simp, rfl⟩,
        rfl, rfl, rfl, rfl⟩
    · exact Or.inl (hsame _ rfl)
  | stopReturns i r =>
    simp only [StopState.step]
    split
    · next hp =>
      cases r with
      | none =>
        exact Or.inr ⟨i, _, Phase.finished, hp, Or.inr rfl, by simp, rfl,
          Or.inl ⟨by simp, rfl⟩, rfl, rfl, rfl, rfl⟩
      | some stopErr =>
        exact Or.inr ⟨i, _, Phase.returned stopErr, hp, Or.inr rfl, by simp, rfl,
          Or.inr ⟨stopErr, rfl, rfl⟩, rfl, rfl, rfl, rfl⟩
    · exact Or.inl (hsame _ rfl)
  | load i => exact absurd rfl (hl i)
  | store i => exact absurd rfl (hs i)
  | closeDone =>
    simp only [StopState.step]
    split
    · next hall =>
      refine Or.inl ⟨rfl, rfl, rfl, fun _ => rfl, fun _ => Or.inr ?_, fun h => Or.inl ⟨h, rfl⟩⟩
      intro p hp
      have := List.all_eq_true.1 hall p hp
      simpa using this
    · exact Or.inl (hsame _ rfl)
  | parentDone c =>
    simp only [StopState.step]
    split
    · exact Or.inl ⟨rfl, rfl, rfl, fun h => h, fun h => Or.inl h, fun h => Or.inl ⟨h, rfl⟩⟩
    · exact Or.inl (hsame _ rfl)
  | deadline =>
    simp only [StopState.step]
    split
    · exact Or.inl ⟨rfl, rfl, rfl, fun h => h, fun h => Or.inl h, fun h => Or.inl ⟨h, rfl⟩⟩
    · exact Or.inl (hsame _ rfl)
  | selectDone =>
    simp only [StopState.step]
    split
    · next hen =>
      simp only [Bool.and_eq_true] at hen
      exact Or.inl ⟨rfl, rfl, rfl, fun h => h, fun h => Or.inl h, fun _ => Or.inr ⟨hen.2, rfl⟩⟩
    · exact Or.inl (hsame _ rfl)
  | selectCtxDone =>
    simp only [StopState.step]
    split
    · refine Or.inl ⟨rfl, rfl, rfl, fun h => h, fun h => Or.inl h, fun h => ?_⟩
      simp at h
    · exact Or.inl (hsame _ rfl)

theorem AtomInv_step_noupdate (stopCtx : Context) (apps : List App) (pc : Bool)
    (s : StopState) (e : StopEvent) (hl : ∀ i, e ≠ .load i) (hs : ∀ i, e ≠ .store i)
    (h : AtomInv s) : AtomInv (StopState.step stopCtx apps pc s e) := by
  obtain ⟨a1, a2, a6, a3, a4, a5⟩ := h
  rcases step_kinds_noupdate stopCtx apps pc s e hl hs with
    ⟨ep, es, ee, ed1, ed2, eb⟩ | ⟨i, p, q, hp, hpq, hq, ep, es, ee, ed, eb, er⟩
  · refine ⟨by rw [ep]; exact a1, by rw [es, ep, ee]; exact a2, by rw [es, ep]; exact a6,
      by rw [es, ee]; exact a3, ?_, ?_⟩
    · intro hd
      rw [ep]
      rcases ed2 hd with hd2 | hall
      · exact a4 hd2
      · exact hall
    · intro hb
      rcases eb hb with ⟨hb2, hr⟩ | ⟨hd, hr⟩
      · exact ⟨ed1 (a5 hb2).1, by rw [hr, ee]; exact (a5 hb2).2⟩
      · exact ⟨ed1 hd, by rw [hr, ee]⟩
  · have hi : i < s.phases.length := (List.getElem?_eq_some.1 hp).1
    have hold : ∀ q2 ∈ s.stopErrs, q2.1 ≠ i := by
      intro q2 hq2 heq
      rcases a2 q2 hq2 with h1 | ⟨h1, -⟩
      · rw [heq, hp] at h1
        rcases hpq with h | h <;> rw [h] at h1 <;> cases h1
      · rw [heq, hp] at h1
        rcases hpq with h | h <;> rw [h] at h1 <;> cases h1
    have hkeep : ∀ q2 ∈ s.stopErrs,
        (s.phases.set i q)[q2.1]? = some (Phase.returned q2.2) ∨
        ((s.phases.set i q)[q2.1]? = some Phase.finished ∧
          errorsIs s.err (some q2.2) = true) := by
      intro q2 hq2
      rw [List.getElem?_set_ne (Ne.symm (hold q2 hq2))]
      exact a2 q2 hq2
    refine ⟨?_, ?_, ?_, ?_, ?_, ?_⟩
    · intro j old x hj
      rw [ep, List.getElem?_set] at hj
      by_cases hij : i = j
      · simp only [hij, if_true] at hj
        split at hj
        · exact hq old x (Option.some.inj hj)
        · cases hj
      · simp only [hij, if_false] at hj
        exact a1 j old x hj
    · rw [ep, ee]
      rcases es with ⟨-, es⟩ | ⟨x, hx, es⟩
      · rw [es]; exact hkeep
      · rw [es]
        intro q2 hq2
        rcases List.mem_append.1 hq2 with h | h
        · exact hkeep q2 h
        · simp only [List.mem_singleton] at h
          rw [h]
          left
          rw [List.getElem?_set_self hi, hx]
    · intro j x hj
      rw [ep, List.getElem?_set] at hj
      by_cases hij : i = j
      · simp only [hij, if_true] at hj
        split at hj
        · have hqx : q = Phase.returned x := Option.some.inj hj
          rcases es with ⟨hnr, -⟩ | ⟨y, hy, es⟩
          · exact absurd hqx (hnr x)
          · rw [es, ← hij]
            rw [hqx] at hy
            cases hy
            exact List.mem_append_right _ (List.mem_singleton.2 rfl)
        · cases hj
      · simp only [hij, if_false] at hj
        have := a6 j x hj
        rcases es with ⟨-, es⟩ | ⟨y, -, es⟩
        · rw [es]; exact this
        · rw [es]; exact List.mem_append_left _ this
    · rw [ee]
      rcases es with ⟨-, es⟩ | ⟨x, hx, es⟩
      · rw [es]; exact a3
      · rw [es]
        intro hnil
        simp at hnil
    · intro hd
      rw [ed] at hd
      have := a4 hd _ (mem_of_getElem?_some _ _ _ hp)
      rcases hpq with h | h <;> rw [h] at this <;> cases this
    · intro hb
      rw [eb] at hb
      rw [ed, er, ee]
      exact a5 hb

theorem store_disabled (stopCtx : Context) (apps : List App) (pc : Bool) (s : StopState)
    (i : Nat) (h : ∀ (old : Error) (e : GoError), s.phases[i]? ≠ some (Phase.loaded old e)) :
    StopState.step stopCtx apps pc s (.store i) = s := by
  cases hp : s.phases[i]? with
  | none => simp only [StopState.step, hp]
  | some p =>
    cases p with
    | loaded old e => exact absurd hp (h old e)
    | _ => simp only [StopState.step, hp]

theorem errorsIs_join_old (old : Error) (w t : GoError)
    (h : errorsIs old (some t) = true) : errorsIs (errorsJoin [old, some w]) (some t) = true := by
  cases old with
  | none => simp [errorsIs] at h
  | some o => exact errorsIs_join_pair o w t (Or.inl h)

theorem errorsIs_join_new (old : Error) (msg : String) (e : GoError) :
    errorsIs (errorsJoin [old, some (fmtErrorf msg e)]) (some e) = true := by
  cases old with
  | none =>
    simp [errorsJoin, errorsIs, GoError.is, GoError.isAny, fmtErrorf, GoError.is_self]
  | some o => exact errorsIs_join_pair o _ e (Or.inr (errorsIs_wrap_self msg e))

theorem AtomInv_update (stopCtx : Context) (apps : List App) (pc : Bool) (s : StopState)
    (i : Nat) (h : AtomInv s) :
    AtomInv (StopState.step stopCtx apps pc (StopState.step stopCtx apps pc s (.load i))
      (.store i)) := by
  obtain ⟨a1, a2, a6, a3, a4, a5⟩ := h
  cases hp : s.phases[i]? with
  | none =>
    have hload : StopState.step stopCtx apps pc s (.load i) = s := by
      simp only [StopState.step, hp]
    rw [hload, store_disabled stopCtx apps pc s i (fun old e => a1 i old e)]
    exact ⟨a1, a2, a6, a3, a4, a5⟩
  | some p =>
    by_cases hret : ∃ e, p = Phase.returned e
    · obtain ⟨e, he⟩ := hret
      subst he
      have hi : i < s.phases.length := (List.getElem?_eq_some.1 hp).1
      have hload : StopState.step stopCtx apps pc s (.load i)
          = { s with phases := s.phases.set i (Phase.loaded s.err e) } := by
        simp only [StopState.step, hp]
      have hstore : StopState.step stopCtx apps pc
          { s with phases := s.phases.set i (Phase.loaded s.err e) } (.store i)
          = { s with phases := s.phases.set i Phase.finished,
                     err := errorsJoin [s.err, some (fmtErrorf "app stop error" e)] } := by
        simp only [StopState.step, List.getElem?_set_self hi, List.set_set]
      rw [hload, hstore]
      have hmem : (i, e) ∈ s.stopErrs := a6 i e hp
      have hnf : ¬ (s.doneClosed = true) := by
        intro hd
        have := a4 hd _ (mem_of_getElem?_some _ _ _ hp)
        cases this
      refine ⟨?_, ?_, ?_, ?_, ?_, ?_⟩
      · intro j old x hj
        simp only [List.getElem?_set] at hj
        by_cases hij : i = j
        · simp only [hij, if_true] at hj
          split at hj <;> cases hj
        · simp only [hij, if_false] at hj
          exact a1 j old x hj
      · intro q hq
        simp only
        by_cases hqi : q.1 = i
        · right
          rw [hqi, List.getElem?_set_self hi]
          refine ⟨rfl, ?_⟩
          rcases a2 q hq with h1 | ⟨h1, -⟩
          · rw [hqi, hp] at h1
            cases h1
            exact errorsIs_join_new _ _ _
          · rw [hqi, hp] at h1
            cases h1
        · rw [List.getElem?_set_ne (Ne.symm hqi)]
          rcases a2 q hq with h1 | ⟨h1, h2⟩
          · exact Or.inl h1
          · exact Or.inr ⟨h1, errorsIs_join_old _ _ _ h2⟩
      · intro j x hj
        simp only [List.getElem?_set] at hj
        by_cases hij : i = j
        · simp only [hij, if_true] at hj
          split at hj <;> cases hj
        · simp only [hij, if_false] at hj
          exact a6 j x hj
      · intro hnil
        simp only at hnil
        rw [hnil] at hmem
        cases hmem
      · intro hd
        exact absurd hd hnf
      · intro hb
        exact absurd (a5 hb).1 hnf
    · have hload : StopState.step stopCtx apps pc s (.load i) = s := by
        simp only [StopState.step, hp]
        split
        · next stopErr hp2 =>
          exact absurd ⟨stopErr, Option.some.inj hp2⟩ hret
        · rfl
      rw [hload, store_disabled stopCtx apps pc s i (fun old e => a1 i old e)]
      exact ⟨a1, a2, a6, a3, a4, a5⟩

theorem AtomInv_foldl (stopCtx : Context) (apps : List App) (pc : Bool)
    (schedule : List StopEvent) (hat : atomicUpdates schedule = true) (s : StopState)
    (h : AtomInv s) : AtomInv (schedule.foldl (StopState.step stopCtx apps pc) s) := by
  induction schedule using atomicUpdates.induct generalizing s with
  | case1 => exact h
  | case2 i j rest ih =>
    simp only [atomicUpdates, Bool.and_eq_true, decide_eq_true_eq] at hat
    obtain ⟨hij, hrest⟩ := hat
    subst hij
    simp only [List.foldl_cons]
    exact ih hrest _ (AtomInv_update stopCtx apps pc s i h)
  | case3 i tail hne =>
    exfalso
    cases tail with
    | nil => simp [atomicUpdates] at hat
    | cons x rest =>
      cases x <;> simp [atomicUpdates] at hat
      exact hne _ _ rfl
  | case4 head rest hne1 hne2 ih =>
    have hrest : atomicUpdates rest = true := by
      cases head <;> simp [atomicUpdates] at hat ⊢ <;> exact hat
    simp only [List.foldl_cons]
    apply ih hrest
    by_cases hst : ∃ i, head = .store i
    · obtain ⟨i, hi⟩ := hst
      rw [hi, store_disabled stopCtx apps pc s i (fun old e => h.1 i old e)]
      exact h
    · exact AtomInv_step_noupdate stopCtx apps pc s head (fun i hi => hne2 i hi)
        (fun i hi => hst ⟨i, hi⟩) h

theorem AtomInv_init (ar : appRunner) (parentErr : Error) : AtomInv (ar.stopInit parentErr) := by
  have hph : ∀ (i : Nat) (p : Phase), (ar.stopInit parentErr).phases[i]? = some p →
      p = Phase.spawned := by
    intro i p hp
    simp only [appRunner.stopInit, List.getElem?_map] at hp
    cases hg : ar.apps[i]? with
    | none => rw [hg] at hp; simp at hp
    | some a =>
      rw [hg] at hp
      simp only [Option.map_some', Option.some.injEq] at hp
      exact hp.symm
  refine ⟨?_, ?_, ?_, fun _ => rfl, ?_, ?_⟩
  · intro i old e hp
    cases hph i _ hp
  · intro q hq
    simp [appRunner.stopInit] at hq
  · intro i e hp
    cases hph i _ hp
  · intro hd
    simp [appRunner.stopInit] at hd
  · intro hb
    simp [appRunner.stopInit] at hb

/-- C4 (when the updates of `err` are not interleaved): for every schedule in which
each goroutine assigns `err` right after reading it, whatever the order of the
goroutines, a `StopApps` that returns through the completion branch returns the
final `err`, from which every stop error returned is recoverable, and which is
nil exactly when no `Stop` returned an error. -/
theorem C4_joined_error_when_updates_atomic (ar : appRunner) (ctx : Context) (ctxErr : Error)
    (schedule : List StopEvent) (hat : atomicUpdates schedule = true)
    (hb : (ar.StopApps ctx ctxErr schedule).branch = some .completed) :
    (ar.StopApps ctx ctxErr schedule).result = some (ar.StopApps ctx ctxErr schedule).err ∧
    (∀ q ∈ (ar.StopApps ctx ctxErr schedule).stopErrs,
      errorsIs (ar.StopApps ctx ctxErr schedule).err (some q.2) = true) ∧
    ((ar.StopApps ctx ctxErr schedule).err = none
      ↔ (ar.StopApps ctx ctxErr schedule).stopErrs = []) := by
  have hinv : AtomInv (ar.StopApps ctx ctxErr schedule) :=
    AtomInv_foldl _ _ _ schedule hat _ (AtomInv_init ar _)
  obtain ⟨a1, a2, a6, a3, a4, a5⟩ := hinv
  obtain ⟨hd, hr⟩ := a5 hb
  have hrec : ∀ q ∈ (ar.StopApps ctx ctxErr schedule).stopErrs,
      errorsIs (ar.StopApps ctx ctxErr schedule).err (some q.2) = true := by
    intro q hq
    rcases a2 q hq with h1 | ⟨-, h2⟩
    · have := a4 hd _ (mem_of_getElem?_some _ _ _ h1)
      cases this
    · exact h2
  refine ⟨hr, hrec, ?_, a3⟩
  intro hnone
  cases hse : (ar.StopApps ctx ctxErr schedule).stopErrs with
  | nil => rfl
  | cons q rest =>
    have := hrec q (by rw [hse]; exact List.mem_cons_self _ _)
    rw [hnone] at this
    simp [errorsIs] at this

/-- C4 (when the updates of `err` are not interleaved), applied to two failing
`Stop` calls whose goroutines update `err` one after the other. -/
theorem C4_joined_error_when_updates_atomic_witness :
    atomicUpdates scheduleSerial2 = true ∧
    (sampleRunner2.StopApps (.root 0 false) none scheduleSerial2).branch = some .completed ∧
    (sampleRunner2.StopApps (.root 0 false) none scheduleSerial2).stopErrs
      = [(0, stopErr0), (1, stopErr1)] ∧
    ((sampleRunner2.StopApps (.root 0 false) none scheduleSerial2).result
      = some (sampleRunner2.StopApps (.root 0 false) none scheduleSerial2).err ∧
    (∀ q ∈ (sampleRunner2.StopApps (.root 0 false) none scheduleSerial2).stopErrs,
      errorsIs (sampleRunner2.StopApps (.root 0 false) none scheduleSerial2).err (some q.2)
        = true) ∧
    ((sampleRunner2.StopApps (.root 0 false) none scheduleSerial2).err = none
      ↔ (sampleRunner2.StopApps (.root 0 false) none scheduleSerial2).stopErrs = [])) :=
  ⟨rfl, rfl, rfl,
   C4_joined_error_when_updates_atomic sampleRunner2 (.root 0 false) none scheduleSerial2
     rfl rfl⟩

theorem StopApps_returns_after_deadline (ar : appRunner) (ctx : Context) (ctxErr : Error)
    (schedule : List StopEvent) :
    (ar.StopApps ctx ctxErr (schedule ++ [.deadline, .selectCtxDone])).result.isSome = true := by
  rw [StopApps_append]
  simp only [List.foldl_cons, List.foldl_nil]
  generalize ar.StopApps ctx ctxErr schedule = s
  cases hr : s.result with
  | some v =>
    cases hc : s.stopCtxErr <;> simp [StopState.step, hr, hc]
  | none =>
    cases hc : s.stopCtxErr <;> simp [StopState.step, hr, hc]

end apprunner
